import Mathlib

/-!
# Two-tier storage: key model, encodings, redis tiers and storage proxy

A shallow embedding of the Go package `storage` (key.go, encoding.go,
redis_storage.go, counter_storage.go, storage.go) together with theorems
about it.

Conventions of the embedding:

* a Go `error` is `Option Error`, `none` being the nil error;
* a Go interface value of type `Key` that may be nil is `Option Key`;
* a Go function returning several values returns a tuple in the same order;
* a collaborator behind an interface (a storage tier, the redis driver) is a
  record of functions over an explicit state: every method takes the state of
  the collaborator and returns the new one next to its Go results;
* an out-parameter (`value interface{}` filled by `Get`, the map filled by
  `MultiGet`) is passed in and returned;
* code that can panic returns an `Outcome`; the state of the collaborators is
  returned next to it, since the calls made before the panic have happened;
* Go's `int` is 64 bits wide, as `int64` is; integers are in `ℤ` and the range
  is checked where Go checks it (`strconv.ParseInt`).
-/

namespace storage

/-! ## key.go -/

/-- Go's builtin `string`. -/
abbrev string := String

/-- The two key types of key.go, `type String string` and `type Int int`, as the
dynamic values an interface of type `Key` can hold. Two keys are equal (as Go
map keys) when they have the same dynamic type and the same value. -/
inductive Key where
  | String (s : string)
  | Int (i : ℤ)
deriving DecidableEq, Repr

/-- Decimal digit `d` (for `d < 10`) as a character. -/
def digitChar (d : Nat) : Char := Char.ofNat (48 + d)

/-- The digit loop of Go's `strconv.FormatInt` in base 10: the decimal digits of
`u`, most significant first, put in front of `acc`. `fuel` bounds the number of
digits; `u + 1` is always enough. -/
def formatBits : Nat → Nat → List Char → List Char
  | 0, _, acc => acc
  | fuel + 1, u, acc =>
    if u < 10 then digitChar u :: acc
    else formatBits fuel (u / 10) (digitChar (u % 10) :: acc)

/-- Go's `strconv.Itoa`: decimal text, with a leading `-` for negatives. -/
def Itoa (i : ℤ) : string :=
  if i < 0 then String.mk ('-' :: formatBits (i.natAbs + 1) i.natAbs [])
  else String.mk (formatBits (i.natAbs + 1) i.natAbs [])

/-- The method `String()` of the `Key` interface:
`func (this String) String() string { return string(this) }` and
`func (this Int) String() string { return strconv.Itoa(int(this)) }`.
(Named `toString` because `Key.String` is the constructor.) -/
def Key.toString : Key → string
  | .String s => s
  | .Int i => Itoa i

/-- Go error values of the package. `EmptyObjectError` is the struct of key.go;
`New` and `Wrap` are the results of godropbox `errors.New` and `errors.Wrap`;
`Driver` is an error value produced by a collaborator (the redis driver, a
storage tier, the standard library), of a type declared outside this package:
`typeName` is the name of its dynamic type as `reflect.TypeOf(err).Name()`
gives it (empty for a pointer type such as `*errors.errorString`), and `text`
is its `Error()` text. -/
inductive Error where
  | EmptyObjectError (Key : string)
  | New (msg : string)
  | Wrap (err : Error) (msg : string)
  | Driver (typeName : string) (text : string)
deriving DecidableEq, Repr

/-- `IsErrorEmpty` of key.go: a type switch on `EmptyObjectError`. -/
def IsErrorEmpty : Option Error → Bool
  | some (.EmptyObjectError _) => true
  | _ => false

/-- Go's `strings.Join(elems, sep)`. -/
def Join (elems : List string) (sep : string) : string :=
  sep.intercalate elems

/-- `BuildCacheKey` of key.go. -/
def BuildCacheKey (keyPrefix : string) (key : Option Key) : string × Option Error :=
  match key with
  | none => ("", some (.New "key should not be nil or to string should not be empty string"))
  | some k =>
    if k.toString = "" then
      ("", some (.New "key should not be nil or to string should not be empty string"))
    else
      (Join [keyPrefix, k.toString] "_", none)

/-- Inverse of `Itoa` used to show that `Itoa` loses nothing: the value of a
run of decimal digits. -/
def digitsValue (cs : List Char) : Nat :=
  cs.foldl (fun acc c => acc * 10 + (c.toNat - 48)) 0

/-- Parses an optional `-` followed by decimal digits. -/
def Atoi (s : string) : ℤ :=
  match s.data with
  | '-' :: cs => -(digitsValue cs : ℤ)
  | cs => (digitsValue cs : ℤ)

/-! ## redis_client.go -/

/-- Go's `time.Duration`, a count of nanoseconds. -/
abbrev Duration := ℤ

/-- A Go byte slice, `none` being the nil slice. Payloads are kept as text, so
that the conversions `[]byte(s)` and `string(b)` are the identity. -/
abbrev Bytes := Option string

/-- The interface `RedisClient` as a record of functions over the state `δ` of
the backing store. The sorted-set methods and `Ping` are not used by the
storage tiers and are left out. `MGet` yields one entry per requested key, nil
(`none`) for a key the store does not have. -/
structure RedisClient (δ : Type) where
  Get : δ → string → Bytes × Option Error × δ
  Set : δ → string → Bytes → Duration → Option Error × δ
  MGet : δ → List string → List (Option string) × Option Error × δ
  MSet : δ → Duration → List Bytes → Option Error × δ
  Expire : δ → string → Duration → Bool × Option Error × δ
  Del : δ → List string → ℤ × Option Error × δ
  Incr : δ → string → ℤ → ℤ × Option Error × δ
  Decr : δ → string → ℤ → ℤ × Option Error × δ

/-! ## Go run-time and standard library pieces used by encoding.go -/

/-- Result of running Go code that may panic: either it returns its results or
it panics (a failed type assertion, a nil dereference, a method call on a nil
interface). -/
inductive Outcome (α : Type) where
  | returns (a : α)
  | panics (msg : string)
deriving DecidableEq, Repr

/-- Whether the code returned rather than panicked. -/
def Outcome.returned {α : Type} : Outcome α → Bool
  | .returns _ => true
  | .panics _ => false

namespace strconv

/-- Go's `strconv.IntSize`: the width of `int`. The embedding is of a 64-bit
platform, where `int` and `int64` have the same range. -/
def IntSize : Nat := 64

/-- Go's `strconv.ErrSyntax`, as carried by a `*NumError`. -/
def ErrSyntax : Error := .Driver "" "invalid syntax"

/-- Go's `strconv.ErrRange`, as carried by a `*NumError`. -/
def ErrRange : Error := .Driver "" "value out of range"

/-- A decimal digit `0`..`9`. -/
def isDigit (c : Char) : Bool := decide (48 ≤ c.toNat ∧ c.toNat ≤ 57)

/-- The part of `strconv.ParseInt` after the sign is picked off: the digits
are converted as `ParseUint` does (a syntax error with value 0 when there is
none or when a character is not a digit) and the magnitude is checked against
the signed range of `bitSize` bits (a range error with the nearest bound as
value). `bitSize` 0 stands for `IntSize`. -/
def parseMagnitude (neg : Bool) (digits : List Char) (bitSize : Nat) : ℤ × Option Error :=
  if digits = [] ∨ digits.all isDigit = false then (0, some ErrSyntax)
  else if neg = false ∧
      (digitsValue digits : ℤ) ≥ 2 ^ ((if bitSize = 0 then IntSize else bitSize) - 1) then
    (2 ^ ((if bitSize = 0 then IntSize else bitSize) - 1) - 1, some ErrRange)
  else if neg = true ∧
      (digitsValue digits : ℤ) > 2 ^ ((if bitSize = 0 then IntSize else bitSize) - 1) then
    (-2 ^ ((if bitSize = 0 then IntSize else bitSize) - 1), some ErrRange)
  else (if neg = true then -(digitsValue digits : ℤ) else (digitsValue digits : ℤ), none)

/-- Go's `strconv.ParseInt(s, 10, bitSize)` (base 10 is the only base used):
an optional sign `+` or `-` followed by one or more decimal digits. -/
def ParseInt (s : string) (bitSize : Nat) : ℤ × Option Error :=
  match s.data with
  | [] => (0, some ErrSyntax)
  | c :: rest =>
    if c = '+' then parseMagnitude false rest bitSize
    else if c = '-' then parseMagnitude true rest bitSize
    else parseMagnitude false (c :: rest) bitSize

/-- Go's `strconv.Atoi(s)`: `ParseInt(s, 10, 0)` converted to `int`. -/
def Atoi (s : string) : ℤ × Option Error := ParseInt s 0

/-- Go's `strconv.AppendInt(dst, i, 10)` on a nil `dst`: the decimal text of
`i`, the same text as `strconv.Itoa` gives. -/
def AppendInt (i : ℤ) : string := Itoa i

end strconv

/-- The range of Go's `int64` (and, on the 64-bit platform, of `int`). -/
def IsInt64 (v : ℤ) : Prop := -2 ^ 63 ≤ v ∧ v < 2 ^ 63

/-! ## encoding.go -/

/-- The dynamic values the scalar encodings tell apart in their type switches
and type assertions: `int64`, `int` and `string` values, pointers to variables
of these types (`none` for a nil pointer, otherwise what the variable holds),
and a value of any other dynamic type, known by the name of its type. Writing
through a pointer gives the pointer to the updated variable. -/
inductive Value where
  | int64 (v : ℤ)
  | int (v : ℤ)
  | string (s : string)
  | int64Ptr (target : Option ℤ)
  | intPtr (target : Option ℤ)
  | stringPtr (target : Option string)
  | other (typeName : string)
deriving DecidableEq, Repr

/-- The interface `Encoding` for values of type `O`. `Unmarshal` returns the
target it was given as the call left it. A method may panic. -/
structure Encoding (O : Type) where
  Marshal : O → Outcome (Bytes × Option Error)
  Unmarshal : Bytes → O → Outcome (Option Error × O)

/-- The capabilities `encoding.BinaryMarshaler` and `encoding.BinaryUnmarshaler`
as seen through a type assertion on a value: `none` when the value's type does
not implement the interface, otherwise what `MarshalBinary()` returns,
respectively what `UnmarshalBinary(data)` returns and leaves in the value. -/
class BinaryMarshaling (O : Type) where
  MarshalBinary : O → Option (Bytes × Option Error)
  UnmarshalBinary : O → Option (Bytes → Option Error × O)

/-- The generic `Marshal(e, v)` of encoding.go; `e` is `none` for a nil
interface, on which the call `e.Marshal(v)` panics. -/
def Marshal {O : Type} [BinaryMarshaling O] (e : Option (Encoding O)) (v : O) :
    Outcome (Bytes × Option Error) :=
  match BinaryMarshaling.MarshalBinary v, e with
  | some bm, none => .returns bm
  | none, none => .panics "invalid memory address or nil pointer dereference"
  | bm, some e =>
    match e.Marshal v with
    | .panics msg => .panics msg
    | .returns (data, none) => .returns (data, none)
    | .returns (data, some err) =>
      match bm with
      | some r => .returns r
      | none => .returns (data, some err)

/-- The generic `Unmarshal(e, data, v)` of encoding.go. When the configured
strategy fails, the capability works on the value as the strategy left it. -/
def Unmarshal {O : Type} [BinaryMarshaling O] (e : Option (Encoding O)) (data : Bytes) (v : O) :
    Outcome (Option Error × O) :=
  match BinaryMarshaling.UnmarshalBinary v, e with
  | some bm, none => .returns (bm data)
  | none, none => .panics "invalid memory address or nil pointer dereference"
  | _, some e =>
    match e.Unmarshal data v with
    | .panics msg => .panics msg
    | .returns (none, v1) => .returns (none, v1)
    | .returns (some err, v1) =>
      match BinaryMarshaling.UnmarshalBinary v1 with
      | some bm => .returns (bm data)
      | none => .returns (some err, v1)

/-- Go's conversion `string(data)` of a byte slice: the nil slice gives the
empty string. -/
def Bytes.toString (data : Bytes) : string := data.getD ""

/-- The type switch shared by `Int64Encoding.Marshal` and `IntEncoding.Marshal`:
`data` starts as the nil slice and stays so in the `default` case; a nil
pointer panics when dereferenced. The error is always nil. -/
def marshalInteger : Value → Outcome (Bytes × Option Error)
  | .int64 v => .returns (some (strconv.AppendInt v), none)
  | .int64Ptr (some v) => .returns (some (strconv.AppendInt v), none)
  | .int64Ptr none => .panics "invalid memory address or nil pointer dereference"
  | .int v => .returns (some (strconv.AppendInt v), none)
  | .intPtr (some v) => .returns (some (strconv.AppendInt v), none)
  | .intPtr none => .panics "invalid memory address or nil pointer dereference"
  | _ => .returns (none, none)

/-- `Int64Encoding` of encoding.go. `Unmarshal` parses first and asserts the
target to `*int64` afterwards, with the unchecked form of the assertion. -/
def Int64Encoding : Encoding Value where
  Marshal := marshalInteger
  Unmarshal data value :=
    match strconv.ParseInt data.toString 0 with
    | (_, some err) => .returns (some err, value)
    | (i, none) =>
      match value with
      | .int64Ptr (some _) => .returns (none, .int64Ptr (some i))
      | .int64Ptr none => .panics "invalid memory address or nil pointer dereference"
      | _ => .panics "interface conversion: interface {} is not *int64"

/-- `IntEncoding` of encoding.go. -/
def IntEncoding : Encoding Value where
  Marshal := marshalInteger
  Unmarshal data value :=
    match strconv.Atoi data.toString with
    | (_, some err) => .returns (some err, value)
    | (i, none) =>
      match value with
      | .intPtr (some _) => .returns (none, .intPtr (some i))
      | .intPtr none => .panics "invalid memory address or nil pointer dereference"
      | _ => .panics "interface conversion: interface {} is not *int"

/-- `StringEncoding` of encoding.go. `[]byte(s)` is never the nil slice. -/
def StringEncoding : Encoding Value where
  Marshal
    | .string v => .returns (some v, none)
    | .stringPtr (some v) => .returns (some v, none)
    | .stringPtr none => .panics "invalid memory address or nil pointer dereference"
    | _ => .returns (none, none)
  Unmarshal data value :=
    match value with
    | .stringPtr (some _) => .returns (none, .stringPtr (some data.toString))
    | .stringPtr none => .panics "invalid memory address or nil pointer dereference"
    | _ => .panics "interface conversion: interface {} is not *string"

/-! ## counter_storage.go -/

/-- The struct `CounterRedisStorage`. The `encoding` field is fixed to
`Int64Encoding` by the constructor; `Get` and `Set` call its methods directly,
`Incr` and `Decr` do not use it. -/
structure CounterRedisStorage (δ : Type) where
  client : RedisClient δ
  KeyPrefix : string
  BenchMarkKeyPrefix : string
  DefaultExpireTime : Duration
  encoding : Encoding Value

/-- `NewCounterRedisStorage` of counter_storage.go. -/
def NewCounterRedisStorage {δ : Type} (client : RedisClient δ) (keyPrefix : string)
    (BenchMarkKeyPrefix : string) (defaultExpireTime : Duration) : CounterRedisStorage δ :=
  ⟨client, keyPrefix, BenchMarkKeyPrefix, defaultExpireTime, Int64Encoding⟩

/-- `CounterRedisStorage.Incr`: the driver state `d` is threaded through the
calls of `client.Incr` and `client.Expire`. -/
def CounterRedisStorage.Incr {δ : Type} (this : CounterRedisStorage δ) (d : δ)
    (key : Option Key) (step : ℤ) : ℤ × Option Error × δ :=
  match BuildCacheKey this.KeyPrefix key with
  | (_, some err) => (0, some (.Wrap err "build cache key error"), d)
  | (cacheKey, none) =>
    let (result, errcache, d) := this.client.Incr d cacheKey step
    let d := if this.DefaultExpireTime > 0 then
        (this.client.Expire d cacheKey this.DefaultExpireTime).2.2 else d
    (result, errcache, d)

/-- `CounterRedisStorage.Decr`. On a negative driver result the function
returns `0, err`, where `err` is the variable assigned by `BuildCacheKey`, which
is nil on this path; the driver's own error is `errcache`. -/
def CounterRedisStorage.Decr {δ : Type} (this : CounterRedisStorage δ) (d : δ)
    (key : Option Key) (step : ℤ) : ℤ × Option Error × δ :=
  match BuildCacheKey this.KeyPrefix key with
  | (_, some err) => (0, some (.Wrap err "build cache key error"), d)
  | (cacheKey, err@none) =>
    let (result, errcache, d) := this.client.Decr d cacheKey step
    if result < 0 then (0, err, d)
    else
      let d := if this.DefaultExpireTime > 0 then
          (this.client.Expire d cacheKey this.DefaultExpireTime).2.2 else d
      (result, errcache, d)

set_option linter.dupNamespace false in
/-- The method `Error()` of an error value. For the errors of godropbox the
text is an approximation (theirs also carries a stack trace); the code only
compares the text of a driver error with `redis: nil`. -/
def Error.Error : storage.Error → string
  | .EmptyObjectError k => "key " ++ k ++ " does not exists"
  | .New msg => msg
  | .Wrap err msg => msg ++ "\n" ++ Error.Error err
  | .Driver _ text => text

/-- The test made on the error of `client.Get` by both tiers: an error whose
text is `redis: nil` is let through, any other error is fatal. -/
def fatalGetError : Option Error → Option Error
  | some err => if err.Error = "redis: nil" then none else some err
  | none => none

/-- `CounterRedisStorage.Get`. The result variable `value` starts at 0 and
`this.encoding.Unmarshal` is given the pointer `&value`. -/
def CounterRedisStorage.Get {δ : Type} (this : CounterRedisStorage δ) (d : δ)
    (key : Option Key) : Outcome (ℤ × Option Error) × δ :=
  match key, BuildCacheKey this.KeyPrefix key with
  | _, (_, some err) => (.returns (0, some (.Wrap err "build cache key error")), d)
  | none, (_, none) => (.panics "invalid memory address or nil pointer dereference", d)
  | some k, (cacheKey, none) =>
    match this.client.Get d cacheKey with
    | (data, err, d) =>
      match fatalGetError err with
      | some err =>
        (.returns (0, some (.Wrap err ("get from redis error key is " ++ cacheKey))), d)
      | none =>
        if data = none ∨ data.toString.length = 0 then
          (.returns (0, some (.EmptyObjectError k.toString)), d)
        else
          match this.encoding.Unmarshal data (.int64Ptr (some 0)) with
          | .panics msg => (.panics msg, d)
          | .returns (some err, _) =>
            (.returns (0, some (.Wrap err ("unmarshal  error , is " ++ data.toString))), d)
          | .returns (none, .int64Ptr (some value)) => (.returns (value, none), d)
          | .returns (none, _) => (.returns (0, none), d)

/-- `CounterRedisStorage.Set`. -/
def CounterRedisStorage.Set {δ : Type} (this : CounterRedisStorage δ) (d : δ)
    (key : Option Key) (value : ℤ) : Outcome (Option Error) × δ :=
  match BuildCacheKey this.KeyPrefix key with
  | (_, some err) => (.returns (some (.Wrap err "build cache key error")), d)
  | (cacheKey, none) =>
    match this.encoding.Marshal (.int64 value) with
    | .panics msg => (.panics msg, d)
    | .returns (_, some err) => (.returns (some (.Wrap err "marshal  error")), d)
    | .returns (buf, none) =>
      match this.client.Set d cacheKey buf this.DefaultExpireTime with
      | (some err, d) => (.returns (some (.Wrap err "redis set error")), d)
      | (none, d) => (.returns none, d)

/-! ## redis_storage.go -/

/-- Go's `strings.Replace(s, old, new, -1)` for one-character `old` and `new`:
every occurrence is replaced. -/
def Replace (s : string) (old new : Char) : string :=
  String.mk (s.data.map (fun c => if c = old then new else c))

/-- The struct `RedisStorage` holding objects of type `O`; `encoding` is `none`
for a nil interface. -/
structure RedisStorage (δ O : Type) where
  client : RedisClient δ
  KeyPrefix : string
  BenchMarkKeyPrefix : string
  DefaultExpireTime : Duration
  encoding : Option (Encoding O)
  newObject : Unit → O
  order : ℤ
  needBenchMark : Bool

/-- `newRedisStorage` of redis_storage.go. -/
def newRedisStorage {δ O : Type} (client : RedisClient δ) (keyPrefix : string)
    (defaultExpireTime : Duration) (order : ℤ) (encoding : Option (Encoding O))
    (newObject : Unit → O) (needBenchMark : Bool) : RedisStorage δ O :=
  if needBenchMark = true then
    ⟨client, Replace keyPrefix '_' '~', "bench~" ++ Replace keyPrefix '_' '~',
      defaultExpireTime, encoding, newObject, order, needBenchMark⟩
  else
    ⟨client, Replace keyPrefix '_' '~', Replace keyPrefix '_' '~',
      defaultExpireTime, encoding, newObject, order, needBenchMark⟩

/-- `NewRedisStorage` of redis_storage.go. -/
def NewRedisStorage {δ O : Type} (client : RedisClient δ) (keyPrefix : string)
    (defaultExpireTime : Duration) (encoding : Option (Encoding O))
    (newObject : Unit → O) (needBenchMark : Bool) : RedisStorage δ O :=
  newRedisStorage client keyPrefix defaultExpireTime 0 encoding newObject needBenchMark

/-- `RedisStorage.Get`: only a nil payload is taken for a miss; any other
payload, the empty one included, goes to `Unmarshal`. -/
def RedisStorage.Get {δ O : Type} [BinaryMarshaling O] (this : RedisStorage δ O) (d : δ)
    (key : Option Key) (value : O) : Outcome (Option Error × O) × δ :=
  match key, BuildCacheKey this.KeyPrefix key with
  | _, (_, some err) => (.returns (some (.Wrap err "build cache key error"), value), d)
  | none, (_, none) => (.panics "invalid memory address or nil pointer dereference", d)
  | some k, (cacheKey, none) =>
    match this.client.Get d cacheKey with
    | (data, err, d) =>
      match fatalGetError err with
      | some err =>
        (.returns (some (.Wrap err ("get from redis error key is " ++ cacheKey)), value), d)
      | none =>
        if data = none then
          (.returns (some (.EmptyObjectError k.toString), value), d)
        else
          match Unmarshal this.encoding data value with
          | .panics msg => (.panics msg, d)
          | .returns (some err, value) =>
            (.returns (some (.Wrap err "unmarshal json error"), value), d)
          | .returns (none, value) => (.returns (none, value), d)

/-- `RedisStorage.Set`: the value is marshalled before the cache key is built. -/
def RedisStorage.Set {δ O : Type} [BinaryMarshaling O] (this : RedisStorage δ O) (d : δ)
    (key : Option Key) (object : O) : Outcome (Option Error) × δ :=
  match Marshal this.encoding object with
  | .panics msg => (.panics msg, d)
  | .returns (_, some err) => (.returns (some (.Wrap err "marshal json error")), d)
  | .returns (buf, none) =>
    match BuildCacheKey this.KeyPrefix key with
    | (_, some err) => (.returns (some (.Wrap err "build cache key error")), d)
    | (cacheKey, none) =>
      match this.client.Set d cacheKey buf this.DefaultExpireTime with
      | (some err, d) => (.returns (some (.Wrap err "redis set error")), d)
      | (none, d) => (.returns none, d)

/-- `RedisStorage.Add`. -/
def RedisStorage.Add {δ O : Type} [BinaryMarshaling O] (this : RedisStorage δ O) (d : δ)
    (key : Option Key) (object : O) : Outcome (Option Error) × δ :=
  this.Set d key object

/-- The loop of `RedisStorage.MultiSet` over the entries of the map, in the
order of the iteration: an entry whose value does not marshal or whose key
does not build is passed over (`continue`), any other entry adds its cache key
and its payload to `values`. The map is a list of entries with distinct keys;
a nil key is a possible map key. -/
def RedisStorage.multiSetValues {δ O : Type} [BinaryMarshaling O] (this : RedisStorage δ O) :
    List (Option Key × O) → Outcome (List Bytes)
  | [] => .returns []
  | (key, value) :: rest =>
    match Marshal this.encoding value with
    | .panics msg => .panics msg
    | .returns (_, some _) => multiSetValues this rest
    | .returns (buf, none) =>
      match BuildCacheKey this.KeyPrefix key with
      | (_, some _) => multiSetValues this rest
      | (cacheKey, none) =>
        match multiSetValues this rest with
        | .panics msg => .panics msg
        | .returns values => .returns (some cacheKey :: buf :: values)

/-- `RedisStorage.MultiSet`. -/
def RedisStorage.MultiSet {δ O : Type} [BinaryMarshaling O] (this : RedisStorage δ O) (d : δ)
    (valueMap : List (Option Key × O)) : Outcome (Option Error) × δ :=
  if valueMap.length = 0 then (.returns none, d)
  else
    match this.multiSetValues valueMap with
    | .panics msg => (.panics msg, d)
    | .returns values =>
      match this.client.MSet d this.DefaultExpireTime values with
      | (some err, d) => (.returns (some (.Wrap err "redis set error")), d)
      | (none, d) => (.returns none, d)

/-! ## Observing the driver -/

/-- One call of a driver method, with its arguments. -/
inductive RedisCall where
  | Get (key : string)
  | Set (key : string) (value : Bytes) (expiration : Duration)
  | MGet (keys : List string)
  | MSet (expiration : Duration) (pairs : List Bytes)
  | Expire (key : string) (expiration : Duration)
  | Del (keys : List string)
  | Incr (key : string) (step : ℤ)
  | Decr (key : string) (step : ℤ)
deriving DecidableEq, Repr

/-- A driver that behaves as `c` and keeps, next to the state of `c`, the list
of the calls it received, oldest first. -/
def Recording {δ : Type} (c : RedisClient δ) : RedisClient (δ × List RedisCall) where
  Get s key :=
    ((c.Get s.1 key).1, (c.Get s.1 key).2.1, ((c.Get s.1 key).2.2, s.2 ++ [.Get key]))
  Set s key value expiration :=
    ((c.Set s.1 key value expiration).1,
      ((c.Set s.1 key value expiration).2, s.2 ++ [.Set key value expiration]))
  MGet s keys :=
    ((c.MGet s.1 keys).1, (c.MGet s.1 keys).2.1, ((c.MGet s.1 keys).2.2, s.2 ++ [.MGet keys]))
  MSet s expiration pairs :=
    ((c.MSet s.1 expiration pairs).1,
      ((c.MSet s.1 expiration pairs).2, s.2 ++ [.MSet expiration pairs]))
  Expire s key expiration :=
    ((c.Expire s.1 key expiration).1, (c.Expire s.1 key expiration).2.1,
      ((c.Expire s.1 key expiration).2.2, s.2 ++ [.Expire key expiration]))
  Del s keys :=
    ((c.Del s.1 keys).1, (c.Del s.1 keys).2.1, ((c.Del s.1 keys).2.2, s.2 ++ [.Del keys]))
  Incr s key step :=
    ((c.Incr s.1 key step).1, (c.Incr s.1 key step).2.1,
      ((c.Incr s.1 key step).2.2, s.2 ++ [.Incr key step]))
  Decr s key step :=
    ((c.Decr s.1 key step).1, (c.Decr s.1 key step).2.1,
      ((c.Decr s.1 key step).2.2, s.2 ++ [.Decr key step]))

/-! ## storage.go -/

/-- A Go map keyed by `Key` (`map[Key]interface{}`, or the map behind the
`valuesMap interface{}` of `MultiGet`), as an association list read by first
match. A nil key is not modelled as a map key or as an element of the `keys` of
`MultiGet`: `reflect.ValueOf` of a nil interface is the zero `Value`, on which
`MapIndex` and `SetMapIndex` panic. -/
abbrev ValuesMap (O : Type) := List (Key × O)

/-- Go's `reflect.Value.MapIndex`: `none` is the invalid (zero) `Value` returned
for a key the map does not have. -/
def MapIndex {O : Type} : ValuesMap O → Key → Option O
  | [], _ => none
  | (k, v) :: rest, key => if k = key then some v else MapIndex rest key

/-- Go's `reflect.Value.SetMapIndex` (also `m[k] = v`). -/
def SetMapIndex {O : Type} (m : ValuesMap O) (key : Key) (v : O) : ValuesMap O :=
  (key, v) :: m.filter (fun e => e.1 ≠ key)

/-- The loop `for k, v := range src { dst[k] = v }`. Go leaves the order of the
iteration open; the result does not depend on it as a map. -/
def mergeInto {O : Type} (dst src : ValuesMap O) : ValuesMap O :=
  src.foldr (fun kv acc => SetMapIndex acc kv.1 kv.2) dst

/-- The signature of a method: the types of its parameters and of its results,
by name. -/
structure Signature where
  params : List string
  results : List string
deriving DecidableEq, Repr

/-- The method set of the interface `Storage` (storage.go). -/
def StorageInterface : List (string × Signature) :=
  [("Get", ⟨["*context.Context", "Key", "interface{}"], ["error"]⟩),
   ("Set", ⟨["*context.Context", "Key", "interface{}"], ["error"]⟩),
   ("Add", ⟨["*context.Context", "Key", "interface{}"], ["error"]⟩),
   ("MultiGet", ⟨["*context.Context", "[]Key", "interface{}"], ["error"]⟩),
   ("MultiSet", ⟨["*context.Context", "map[Key]interface{}"], ["error"]⟩),
   ("Delete", ⟨["*context.Context", "...Key"], ["error"]⟩)]

/-- The method set of the interface `CounterStorage` (counter_storage.go). -/
def CounterStorageInterface : List (string × Signature) :=
  [("Get", ⟨["*context.Context", "Key"], ["int64", "error"]⟩),
   ("Set", ⟨["*context.Context", "Key", "int64"], ["error"]⟩),
   ("Incr", ⟨["*context.Context", "Key", "int64"], ["int64", "error"]⟩),
   ("Decr", ⟨["*context.Context", "Key", "int64"], ["int64", "error"]⟩),
   ("Delete", ⟨["*context.Context", "...Key"], ["error"]⟩),
   ("MultiGet", ⟨["*context.Context", "[]Key", "map[Key]int64"], ["error"]⟩),
   ("MultiSet", ⟨["*context.Context", "map[Key]int64"], ["error"]⟩)]

/-- The signature of the method `name` in the method set of a type. A type has
at most one method of a given name: the set is read by first match. -/
def methodOf (methods : List (string × Signature)) (name : string) : Option Signature :=
  match methods with
  | [] => none
  | (n, sig) :: rest => if n = name then some sig else methodOf rest name

/-- Go's rule for a type to implement an interface: the type has every method
of the interface, with the same signature. -/
def Implements (methods iface : List (string × Signature)) : Bool :=
  iface.all (fun m => decide (methodOf methods m.1 = some m.2))

/-- The part of the interface `CounterStorage` that the proxy calls, as a record
of functions over the state `σ` of a tier. -/
structure CounterStorage (σ : Type) where
  Incr : σ → Option Key → ℤ → ℤ × Option Error × σ
  Decr : σ → Option Key → ℤ → ℤ × Option Error × σ

/-- What a type assertion sees of the value held in a field of interface type:
the method set of its dynamic type, and what its counter methods do when it
has them. -/
structure DynamicType (σ : Type) where
  methods : List (string × Signature)
  counter : Option (CounterStorage σ)

/-- The type assertion `x.(CounterStorage)`: `none` when it fails (the unchecked
form then panics), otherwise the value as a `CounterStorage`. -/
def DynamicType.assertCounterStorage {σ : Type} (t : DynamicType σ) :
    Option (CounterStorage σ) :=
  if Implements t.methods CounterStorageInterface = true then t.counter else none

/-- The dynamic type of a value that has the six methods of `Storage` and no
other. -/
def DynamicType.storageOnly {σ : Type} : DynamicType σ := ⟨StorageInterface, none⟩

/-- The interface `Storage` as a record of functions over the state `σ` of a
tier holding objects of type `O` (the `ctx` argument is passed through
untouched and left out). `Get` fills the `value` it is given and `MultiGet`
the map it is given; `Add` may change the object it inserts (a database
assigning the auto-increment key), so it returns the object too.
`dynamicType` describes the value behind the interface for the type
assertions made on it. -/
structure Storage (σ O : Type) where
  Get : σ → Option Key → O → Option Error × O × σ
  Set : σ → Option Key → O → Option Error × σ
  Add : σ → Option Key → O → Option Error × O × σ
  MultiGet : σ → List Key → ValuesMap O → Option Error × ValuesMap O × σ
  MultiSet : σ → ValuesMap O → Option Error × σ
  Delete : σ → List (Option Key) → Option Error × σ
  dynamicType : DynamicType σ := DynamicType.storageOnly

/-- The optional interfaces `KeyChangeable` and `KeyGetter` of key.go, as seen
through a type assertion on an object: `none` when the object's type does not
implement the interface, otherwise the result of the method. -/
class Object (O : Type) where
  IsKeyChangeable : O → Option Bool
  GetKey : O → Option (Option Key)

/-- Which of the two tiers of a proxy a call went to. -/
inductive Tier where
  | Prefered
  | Backup
deriving DecidableEq, Repr

/-- One call of a tier method made by the proxy, with its arguments. -/
inductive Call (O : Type) where
  | Get (tier : Tier) (key : Option Key)
  | Set (tier : Tier) (key : Option Key) (object : O)
  | Add (tier : Tier) (key : Option Key) (object : O)
  | MultiGet (tier : Tier) (keys : List Key)
  | MultiSet (tier : Tier) (values : ValuesMap O)
  | Delete (tier : Tier) (keys : List (Option Key))
  | Incr (tier : Tier) (key : Option Key) (step : ℤ)
  | Decr (tier : Tier) (key : Option Key) (step : ℤ)
deriving DecidableEq, Repr

/-- What a proxy call can change: the state of each tier, and the log of the
tier calls made so far, oldest first. -/
structure World (σp σb O : Type) where
  prefered : σp
  backup : σb
  calls : List (Call O)
deriving DecidableEq, Repr

/-- The struct `StorageProxy`. -/
structure StorageProxy (σp σb O : Type) where
  PreferedStorage : Storage σp O
  BackupStorage : Storage σb O

/-- `NewStorageProxy` of storage.go. -/
def NewStorageProxy {σp σb O : Type} (prefered : Storage σp O) (backup : Storage σb O) :
    StorageProxy σp σb O :=
  ⟨prefered, backup⟩

/-- Go's `reflect.TypeOf(err).Name()` on a non-nil error: the name of the
dynamic type, without its package. `errors.New` and `errors.Wrap` give
pointers, whose type name is empty; a collaborator's error has the name of its
own type, which may be `EmptyObjectError` too, for a type so named in another
package. -/
def TypeName : Error → string
  | .EmptyObjectError _ => "EmptyObjectError"
  | .New _ => ""
  | .Wrap _ _ => ""
  | .Driver typeName _ => typeName

/-- `StorageProxy.Get` of storage.go. -/
def StorageProxy.Get {σp σb O : Type} (this : StorageProxy σp σb O) (w : World σp σb O)
    (key : Option Key) (value : O) : Option Error × O × World σp σb O :=
  match this.PreferedStorage.Get w.prefered key value with
  | (some err, value, sp) =>
    let w : World σp σb O := ⟨sp, w.backup, w.calls ++ [.Get .Prefered key]⟩
    if TypeName err = "EmptyObjectError" then
      match this.BackupStorage.Get w.backup key value with
      | (some err, value, sb) =>
        (some err, value, ⟨w.prefered, sb, w.calls ++ [.Get .Backup key]⟩)
      | (none, value, sb) =>
        let w : World σp σb O := ⟨w.prefered, sb, w.calls ++ [.Get .Backup key]⟩
        match this.PreferedStorage.Set w.prefered key value with
        | (some err, sp) =>
          (some err, value, ⟨sp, w.backup, w.calls ++ [.Set .Prefered key value]⟩)
        | (none, sp) =>
          (none, value, ⟨sp, w.backup, w.calls ++ [.Set .Prefered key value]⟩)
    else
      (some err, value, w)
  | (none, value, sp) =>
    (none, value, ⟨sp, w.backup, w.calls ++ [.Get .Prefered key]⟩)

/-- `StorageProxy.Add` of storage.go; `object` is `none` for a nil interface.
The two type assertions and `IsKeyChangeable()` are evaluated on the object as
`BackupStorage.Add` left it. -/
def StorageProxy.Add {σp σb O : Type} [Object O] (this : StorageProxy σp σb O)
    (w : World σp σb O) (key : Option Key) (object : Option O) :
    Option Error × World σp σb O :=
  match object with
  | none => (none, w)
  | some object =>
    match this.BackupStorage.Add w.backup key object with
    | (some err, _, sb) =>
      (some err, ⟨w.prefered, sb, w.calls ++ [.Add .Backup key object]⟩)
    | (none, object1, sb) =>
      let w : World σp σb O := ⟨w.prefered, sb, w.calls ++ [.Add .Backup key object]⟩
      let key : Option Key :=
        match Object.IsKeyChangeable object1, Object.GetKey object1 with
        | some changeable, some k => if changeable then k else key
        | _, _ => key
      match this.PreferedStorage.Add w.prefered key object1 with
      | (some err, _, sp) =>
        (some err, ⟨sp, w.backup, w.calls ++ [.Add .Prefered key object1]⟩)
      | (none, _, sp) =>
        (none, ⟨sp, w.backup, w.calls ++ [.Add .Prefered key object1]⟩)

/-- `StorageProxy.Set` of storage.go; `object` is `none` for a nil interface. -/
def StorageProxy.Set {σp σb O : Type} (this : StorageProxy σp σb O) (w : World σp σb O)
    (key : Option Key) (object : Option O) : Option Error × World σp σb O :=
  match object with
  | none => (none, w)
  | some object =>
    match this.PreferedStorage.Set w.prefered key object with
    | (some err, sp) =>
      (some err, ⟨sp, w.backup, w.calls ++ [.Set .Prefered key object]⟩)
    | (none, sp) =>
      let w : World σp σb O := ⟨sp, w.backup, w.calls ++ [.Set .Prefered key object]⟩
      match this.BackupStorage.Set w.backup key object with
      | (some err, sb) =>
        (some err, ⟨w.prefered, sb, w.calls ++ [.Set .Backup key object]⟩)
      | (none, sb) =>
        (none, ⟨w.prefered, sb, w.calls ++ [.Set .Backup key object]⟩)

/-- The loop of `StorageProxy.MultiGet` collecting the requested keys that the
result map does not hold, in request order. -/
def missedKeys {O : Type} (keys : List Key) (valuesMap : ValuesMap O) : List Key :=
  keys.filter (fun key => (MapIndex valuesMap key).isNone)

/-- `StorageProxy.MultiGet` of storage.go. `missedKeyCount` is the length of
`missedKeys`; `missedMap` starts empty; the result of the backfill
`PreferedStorage.MultiSet` is dropped. -/
def StorageProxy.MultiGet {σp σb O : Type} (this : StorageProxy σp σb O)
    (w : World σp σb O) (keys : List Key) (valuesMap : ValuesMap O) :
    Option Error × ValuesMap O × World σp σb O :=
  match this.PreferedStorage.MultiGet w.prefered keys valuesMap with
  | (some _, valuesMap, sp) =>
    (none, valuesMap, ⟨sp, w.backup, w.calls ++ [.MultiGet .Prefered keys]⟩)
  | (none, valuesMap, sp) =>
    let w : World σp σb O := ⟨sp, w.backup, w.calls ++ [.MultiGet .Prefered keys]⟩
    let missed := missedKeys keys valuesMap
    let missedKeyCount := missed.length
    if missedKeyCount > 0 then
      match this.BackupStorage.MultiGet w.backup missed [] with
      | (some err, _, sb) =>
        (some err, valuesMap, ⟨w.prefered, sb, w.calls ++ [.MultiGet .Backup missed]⟩)
      | (none, missedMap, sb) =>
        let w : World σp σb O := ⟨w.prefered, sb, w.calls ++ [.MultiGet .Backup missed]⟩
        if missedMap.length = 0 then
          (none, valuesMap, w)
        else
          let sp := (this.PreferedStorage.MultiSet w.prefered missedMap).2
          (none, mergeInto valuesMap missedMap,
            ⟨sp, w.backup, w.calls ++ [.MultiSet .Prefered missedMap]⟩)
    else
      (none, valuesMap, w)

/-- `StorageProxy.MultiSet` of storage.go. -/
def StorageProxy.MultiSet {σp σb O : Type} (this : StorageProxy σp σb O)
    (w : World σp σb O) (objectMap : ValuesMap O) : Option Error × World σp σb O :=
  match this.PreferedStorage.MultiSet w.prefered objectMap with
  | (some err, sp) =>
    (some err, ⟨sp, w.backup, w.calls ++ [.MultiSet .Prefered objectMap]⟩)
  | (none, sp) =>
    let w : World σp σb O := ⟨sp, w.backup, w.calls ++ [.MultiSet .Prefered objectMap]⟩
    match this.BackupStorage.MultiSet w.backup objectMap with
    | (some err, sb) =>
      (some err, ⟨w.prefered, sb, w.calls ++ [.MultiSet .Backup objectMap]⟩)
    | (none, sb) =>
      (none, ⟨w.prefered, sb, w.calls ++ [.MultiSet .Backup objectMap]⟩)

/-- `StorageProxy.Delete` of storage.go. -/
def StorageProxy.Delete {σp σb O : Type} (this : StorageProxy σp σb O)
    (w : World σp σb O) (key : List (Option Key)) : Option Error × World σp σb O :=
  match this.BackupStorage.Delete w.backup key with
  | (some err, sb) =>
    (some err, ⟨w.prefered, sb, w.calls ++ [.Delete .Backup key]⟩)
  | (none, sb) =>
    let w : World σp σb O := ⟨w.prefered, sb, w.calls ++ [.Delete .Backup key]⟩
    match this.PreferedStorage.Delete w.prefered key with
    | (some err, sp) =>
      (some err, ⟨sp, w.backup, w.calls ++ [.Delete .Prefered key]⟩)
    | (none, sp) =>
      (none, ⟨sp, w.backup, w.calls ++ [.Delete .Prefered key]⟩)

/-- `StorageProxy.Incr` of storage.go. Each tier is asserted to
`CounterStorage` with the unchecked form `x.(CounterStorage)`, which panics
when the assertion fails; the backup tier is asserted only after the preferred
call has returned without error. -/
def StorageProxy.Incr {σp σb O : Type} (this : StorageProxy σp σb O) (w : World σp σb O)
    (key : Option Key) (step : ℤ) : Outcome (ℤ × Option Error) × World σp σb O :=
  match this.PreferedStorage.dynamicType.assertCounterStorage with
  | none => (.panics "interface conversion: not storage.CounterStorage", w)
  | some prefered =>
    match prefered.Incr w.prefered key step with
    | (result, some err, sp) =>
      (.returns (result, some err),
        ⟨sp, w.backup, w.calls ++ [.Incr .Prefered key step]⟩)
    | (_, none, sp) =>
      let w : World σp σb O := ⟨sp, w.backup, w.calls ++ [.Incr .Prefered key step]⟩
      match this.BackupStorage.dynamicType.assertCounterStorage with
      | none => (.panics "interface conversion: not storage.CounterStorage", w)
      | some backup =>
        match backup.Incr w.backup key step with
        | (result, err, sb) =>
          (.returns (result, err), ⟨w.prefered, sb, w.calls ++ [.Incr .Backup key step]⟩)

/-- `StorageProxy.Decr` of storage.go. -/
def StorageProxy.Decr {σp σb O : Type} (this : StorageProxy σp σb O) (w : World σp σb O)
    (key : Option Key) (step : ℤ) : Outcome (ℤ × Option Error) × World σp σb O :=
  match this.PreferedStorage.dynamicType.assertCounterStorage with
  | none => (.panics "interface conversion: not storage.CounterStorage", w)
  | some prefered =>
    match prefered.Decr w.prefered key step with
    | (result, some err, sp) =>
      (.returns (result, some err),
        ⟨sp, w.backup, w.calls ++ [.Decr .Prefered key step]⟩)
    | (_, none, sp) =>
      let w : World σp σb O := ⟨sp, w.backup, w.calls ++ [.Decr .Prefered key step]⟩
      match this.BackupStorage.dynamicType.assertCounterStorage with
      | none => (.panics "interface conversion: not storage.CounterStorage", w)
      | some backup =>
        match backup.Decr w.backup key step with
        | (result, err, sb) =>
          (.returns (result, err), ⟨w.prefered, sb, w.calls ++ [.Decr .Backup key step]⟩)

/-! ## The single-tier contract -/

/-- Go's `strings.Split(s, sep)` for a one-character `sep`, on the characters
of `s`: the pieces between the separators, in order. The result is never
empty (the empty string gives one empty piece). -/
def Split (sep : Char) : List Char → List (List Char)
  | [] => [[]]
  | c :: cs =>
    if c = sep then [] :: Split sep cs
    else
      match Split sep cs with
      | piece :: pieces => (c :: piece) :: pieces
      | [] => [[c]]

/-- `GetRawKey` of key.go: `keys[len(keys)-1]` of the split at `_`, as a key of
type `String`. -/
def GetRawKey (key : string) : Key :=
  .String (String.mk ((Split '_' key.data).getLastD []))

/-! ## redis_storage.go and counter_storage.go: MultiGet and Delete -/

/-- The loop that builds the cache keys of `keys` in request order and returns
at the first key that fails to build, with the error of `BuildCacheKey`
(`RedisStorage.MultiGet`, `CounterRedisStorage.MultiGet` and
`CounterRedisStorage.Delete`). -/
def buildCacheKeys (keyPrefix : string) : List (Option Key) → List string × Option Error
  | [] => ([], none)
  | key :: rest =>
    match BuildCacheKey keyPrefix key with
    | (_, some err) => ([], some err)
    | (cacheKey, none) =>
      match buildCacheKeys keyPrefix rest with
      | (_, some err) => ([], some err)
      | (cacheKeys, none) => (cacheKey :: cacheKeys, none)

/-- The loop `for i, value := range val` of both `MultiGet`: a nil entry is
passed over; any other entry is decoded into a fresh object and, when the
decoding returns no error, stored in the map under `keys[i]` (`decode` gives
`none` for a decode error). `keys` is the part of the key list from position
`i` on; indexing past its end panics. `warnsWithKey` says that the warning
logged for a decode error evaluates `keys[i].String()`, as the one of
`RedisStorage.MultiGet` does. A nil key panics as the map key of
`SetMapIndex`; `MultiGet` reaches the loop only after it has built every key,
so with none. -/
def multiGetLoop {O : Type} (warnsWithKey : Bool) (decode : string → Outcome (Option O)) :
    List (Option Key) → List (Option string) → ValuesMap O → Outcome (ValuesMap O)
  | _, [], m => .returns m
  | keys, none :: val, m => multiGetLoop warnsWithKey decode keys.tail val m
  | keys, some payload :: val, m =>
    match decode payload with
    | .panics msg => .panics msg
    | .returns none =>
      if warnsWithKey then
        match keys with
        | [] => .panics "index out of range"
        | none :: _ => .panics "invalid memory address or nil pointer dereference"
        | some _ :: rest => multiGetLoop warnsWithKey decode rest val m
      else multiGetLoop warnsWithKey decode keys.tail val m
    | .returns (some object) =>
      match keys with
      | [] => .panics "index out of range"
      | none :: _ => .panics "reflect: call of reflect.Value.Type on zero Value"
      | some key :: rest => multiGetLoop warnsWithKey decode rest val (SetMapIndex m key object)

/-- The body that `RedisStorage.MultiGet` and `CounterRedisStorage.MultiGet`
share, up to how a payload is decoded and what the warning for a decode error
prints: no driver call for an empty key list; the whole call fails when a key
fails to build or when the batched read `MGet` fails; otherwise the loop over
the payloads fills the map. -/
def multiGet {δ O : Type} (client : RedisClient δ) (keyPrefix : string) (warnsWithKey : Bool)
    (decode : string → Outcome (Option O)) (d : δ) (keys : List (Option Key))
    (values : ValuesMap O) : Outcome (Option Error × ValuesMap O) × δ :=
  if keys.length = 0 then (.returns (none, values), d)
  else
    match buildCacheKeys keyPrefix keys with
    | (_, some err) => (.returns (some (.Wrap err "build cache key error"), values), d)
    | (cacheKeys, none) =>
      match client.MGet d cacheKeys with
      | (_, some err, d) => (.returns (some (.Wrap err "redis get error"), values), d)
      | (val, none, d) =>
        match multiGetLoop warnsWithKey decode keys val values with
        | .panics msg => (.panics msg, d)
        | .returns m => (.returns (none, m), d)

/-- How `RedisStorage.MultiGet` decodes a payload: `Unmarshal` with the
configured encoding into `this.newObject()`. -/
def RedisStorage.decode {δ O : Type} [BinaryMarshaling O] (this : RedisStorage δ O)
    (payload : string) : Outcome (Option O) :=
  match Unmarshal this.encoding (some payload) (this.newObject ()) with
  | .panics msg => .panics msg
  | .returns (some _, _) => .returns none
  | .returns (none, object) => .returns (some object)

/-- `RedisStorage.MultiGet`. -/
def RedisStorage.MultiGet {δ O : Type} [BinaryMarshaling O] (this : RedisStorage δ O) (d : δ)
    (keys : List (Option Key)) (value : ValuesMap O) :
    Outcome (Option Error × ValuesMap O) × δ :=
  multiGet this.client this.KeyPrefix true this.decode d keys value

/-- How `CounterRedisStorage.MultiGet` decodes a payload: `this.encoding.Unmarshal`
into the address of a fresh `int64` variable. -/
def CounterRedisStorage.decode {δ : Type} (this : CounterRedisStorage δ)
    (payload : string) : Outcome (Option ℤ) :=
  match this.encoding.Unmarshal (some payload) (.int64Ptr (some 0)) with
  | .panics msg => .panics msg
  | .returns (some _, _) => .returns none
  | .returns (none, .int64Ptr (some object)) => .returns (some object)
  | .returns (none, _) => .returns (some 0)

/-- `CounterRedisStorage.MultiGet`. -/
def CounterRedisStorage.MultiGet {δ : Type} (this : CounterRedisStorage δ) (d : δ)
    (keys : List (Option Key)) (values : ValuesMap ℤ) :
    Outcome (Option Error × ValuesMap ℤ) × δ :=
  multiGet this.client this.KeyPrefix false this.decode d keys values

/-- The loop of `RedisStorage.Delete` over the keys: a key that fails to build
is logged and passed over (`continue`), which leaves the empty string in its
place of `cacheKeyList`. -/
def RedisStorage.deleteCacheKeys (keyPrefix : string) : List (Option Key) → List string
  | [] => []
  | key :: rest =>
    (match BuildCacheKey keyPrefix key with
      | (_, some _) => ""
      | (cacheKey, none) => cacheKey) :: deleteCacheKeys keyPrefix rest

/-- `RedisStorage.Delete`. The `return` that follows the assignment in the loop
is never reached: the error is tested, and the loop continued, before it. -/
def RedisStorage.Delete {δ O : Type} (this : RedisStorage δ O) (d : δ)
    (keyList : List (Option Key)) : Option Error × δ :=
  if keyList.length = 0 then (none, d)
  else
    match this.client.Del d (RedisStorage.deleteCacheKeys this.KeyPrefix keyList) with
    | (_, some err, d) => (some (.Wrap err "redis delete error"), d)
    | (_, none, d) => (none, d)

/-- `CounterRedisStorage.Delete`: returns at the first key that fails to build. -/
def CounterRedisStorage.Delete {δ : Type} (this : CounterRedisStorage δ) (d : δ)
    (keyList : List (Option Key)) : Option Error × δ :=
  if keyList.length = 0 then (none, d)
  else
    match buildCacheKeys this.KeyPrefix keyList with
    | (_, some err) => (some (.Wrap err "build cache key error"), d)
    | (cacheKeyList, none) =>
      match this.client.Del d cacheKeyList with
      | (_, some err, d) => (some (.Wrap err "redis delete error"), d)
      | (_, none, d) => (none, d)

/-! ## Test doubles

In-memory collaborators on which the theorems are exercised: a tier that keeps
a map, variants of it whose writes or reads fail, and a redis driver that keeps
its values as text. -/

/-- An application object: a record whose key is its `Id`. `AutoId` says that
the `Id` is assigned by the database on insert (`IsKeyChangeable`). -/
structure Row where
  Id : ℤ
  Name : string
  AutoId : Bool
deriving DecidableEq, Repr

instance : Object Row where
  IsKeyChangeable r := some r.AutoId
  GetKey r := some (some (Key.Int r.Id))

/-- State of the in-memory tier: the map it keeps and the next identity it
assigns. -/
structure MemState where
  data : ValuesMap Row
  nextId : ℤ
deriving DecidableEq, Repr

/-- The in-memory tier, a cache: `Add` stores under the given key as `Set`
does. -/
def MemStorage : Storage MemState Row where
  Get s key value :=
    match key with
    | none => (some (.New "nil key"), value, s)
    | some k =>
      match MapIndex s.data k with
      | some v => (none, v, s)
      | none => (some (.EmptyObjectError k.toString), value, s)
  Set s key object :=
    match key with
    | none => (some (.New "nil key"), s)
    | some k => (none, ⟨SetMapIndex s.data k object, s.nextId⟩)
  Add s key object :=
    match key with
    | none => (some (.New "nil key"), object, s)
    | some k => (none, object, ⟨SetMapIndex s.data k object, s.nextId⟩)
  MultiGet s keys m :=
    (none, mergeInto m (s.data.filter (fun e => e.1 ∈ keys)), s)
  MultiSet s m := (none, ⟨mergeInto s.data m, s.nextId⟩)
  Delete s keys := (none, ⟨s.data.filter (fun e => some e.1 ∉ keys), s.nextId⟩)

/-- The in-memory tier as a database with an auto-increment key: `Add` of a row
with `AutoId` assigns the next identity to the row and stores the row under
it, whatever key the caller gave. -/
def AutoIdStorage : Storage MemState Row where
  Get := MemStorage.Get
  Set := MemStorage.Set
  Add s key object :=
    if object.AutoId then
      (none, ⟨s.nextId, object.Name, object.AutoId⟩,
        ⟨SetMapIndex s.data (.Int s.nextId) ⟨s.nextId, object.Name, object.AutoId⟩,
          s.nextId + 1⟩)
    else
      MemStorage.Add s key object
  MultiGet := MemStorage.MultiGet
  MultiSet := MemStorage.MultiSet
  Delete := MemStorage.Delete

/-- The in-memory tier with every write failing (a cache that is down for
writes): `Set`, `Add`, `MultiSet` and `Delete` return `err` and change nothing. -/
def WriteFailing (err : Error) : Storage MemState Row where
  Get := MemStorage.Get
  Set s _ _ := (some err, s)
  Add s _ object := (some err, object, s)
  MultiGet := MemStorage.MultiGet
  MultiSet s _ := (some err, s)
  Delete s _ := (some err, s)

/-- The in-memory tier with every read failing: `Get` and `MultiGet` return
`err` and fill nothing. -/
def ReadFailing (err : Error) : Storage MemState Row where
  Get s _ value := (some err, value, s)
  Set := MemStorage.Set
  Add := MemStorage.Add
  MultiGet s _ m := (some err, m, s)
  MultiSet := MemStorage.MultiSet
  Delete := MemStorage.Delete

/-- Writes the flat `key, value, key, value, ...` list of `MSet`. -/
def msetPairs : List Bytes → List (string × string) → List (string × string)
  | k :: v :: rest, d => msetPairs rest ((k.getD "", v.getD "") :: d.filter (fun e => e.1 ≠ k.getD ""))
  | _, d => d

/-- An in-memory redis: keys to text values, expiry not modelled. `Incr` and
`Decr` read the decimal text under the key (0 when absent) and store the new
value, as redis INCRBY and DECRBY do. -/
def MemRedis : RedisClient (List (string × string)) where
  Get d key :=
    match d.lookup key with
    | some v => (some v, none, d)
    | none => (none, some (.Driver "" "redis: nil"), d)
  Set d key value _ := (none, (key, value.getD "") :: d.filter (fun e => e.1 ≠ key))
  MGet d keys := (keys.map (fun k => d.lookup k), none, d)
  MSet d _ pairs := (none, msetPairs pairs d)
  Expire d key _ := ((d.lookup key).isSome, none, d)
  Del d keys := (((d.filter (fun e => e.1 ∈ keys)).length : ℤ), none, d.filter (fun e => e.1 ∉ keys))
  Incr d key step :=
    (Atoi ((d.lookup key).getD "0") + step, none,
      (key, Itoa (Atoi ((d.lookup key).getD "0") + step)) :: d.filter (fun e => e.1 ≠ key))
  Decr d key step :=
    (Atoi ((d.lookup key).getD "0") - step, none,
      (key, Itoa (Atoi ((d.lookup key).getD "0") - step)) :: d.filter (fun e => e.1 ≠ key))

/-- Two keys of the same key type: both `String` or both `Int`. -/
def SameKeyType : Key → Key → Bool
  | .String _, .String _ => true
  | .Int _, .Int _ => true
  | _, _ => false

/-- A row as the application holds it, with key `Int 7`. -/
def rowX : Row := ⟨7, "x", false⟩

/-- The blank value handed to `Get` as the slot to fill. -/
def blankRow : Row := ⟨0, "", false⟩

/-- An empty tier. -/
def emptyTier : MemState := ⟨[], 1⟩

/-- A tier holding `rowX` under the key `Int 7`. -/
def tierWithX : MemState := ⟨[(.Int 7, rowX)], 8⟩

/-- The empty tier after `rowX` was set under `Int 7`. -/
def warmedTier : MemState := ⟨[(.Int 7, rowX)], 1⟩

/-- The error of a tier that is down. -/
def downErr : Error := .Driver "" "connection refused"

/-- Empty preferred tier, backup holding `rowX`, no call made yet. -/
def coldCache : World MemState MemState Row := ⟨emptyTier, tierWithX, []⟩

/-- Both tiers empty. -/
def emptyWorld : World MemState MemState Row := ⟨emptyTier, emptyTier, []⟩

/-- A proxy over two healthy in-memory tiers. -/
def healthyProxy : StorageProxy MemState MemState Row :=
  NewStorageProxy MemStorage MemStorage

/-- A proxy whose preferred tier refuses writes. -/
def readOnlyCacheProxy : StorageProxy MemState MemState Row :=
  NewStorageProxy (WriteFailing downErr) MemStorage

/-- A proxy whose preferred tier fails every read. -/
def unreadableCacheProxy : StorageProxy MemState MemState Row :=
  NewStorageProxy (ReadFailing downErr) MemStorage

/-- A proxy whose backup tier refuses writes. -/
def readOnlyBackupProxy : StorageProxy MemState MemState Row :=
  NewStorageProxy MemStorage (WriteFailing downErr)

/-- A proxy with a cache in front of a database that assigns identities. -/
def dbBackedProxy : StorageProxy MemState MemState Row :=
  NewStorageProxy MemStorage AutoIdStorage

/-- A row not yet inserted: its `Id` is a placeholder. -/
def newRow : Row := ⟨0, "new", true⟩

/-- Empty cache, empty database whose next identity is 42. -/
def freshDb : World MemState MemState Row := ⟨emptyTier, ⟨[], 42⟩, []⟩

/-- The tier holding `rowX` under `Int 7` and a second row under `String "b"`. -/
def tierWithXB : MemState := ⟨[(.Int 7, rowX), (.String "b", ⟨8, "y", false⟩)], 9⟩

/-- The second row, held under `String "b"`. -/
def rowY : Row := ⟨8, "y", false⟩

/-- Preferred tier holding `Int 7`; backup holding `Int 7` and `String "b"`;
`String "c"` is in neither. -/
def partWarmWorld : World MemState MemState Row := ⟨tierWithX, tierWithXB, []⟩

/-- The keys A (in the preferred tier), B (only in backup), C (in neither). -/
def keysABC : List Key := [.Int 7, .String "b", .String "c"]

/-- A counter tier over the in-memory redis, prefix `cnt`, no expiry. -/
def counterTier : CounterRedisStorage (List (string × string)) :=
  NewCounterRedisStorage MemRedis "cnt" "cnt" 0

/-! ## Definitions for the encodings and the redis tier -/

/-- The scalar values and the pointers to them implement neither
`BinaryMarshaler` nor `BinaryUnmarshaler`; `Value.other` stands for a value of
another type without them. -/
instance : BinaryMarshaling Value where
  MarshalBinary _ := none
  UnmarshalBinary _ := none

/-- The text `s` is a decimal numeral of the integer `v`: an optional sign `+`
or `-` followed by one or more decimal digits whose value is the magnitude of
`v`. Follows the words of the specification, not the parser. -/
def IsDecimalText (s : string) (v : ℤ) : Prop :=
  ∃ sign digits, s.data = sign ++ digits ∧ (sign = [] ∨ sign = ['+'] ∨ sign = ['-']) ∧
    digits ≠ [] ∧ digits.all strconv.isDigit = true ∧
    v = if sign = ['-'] then -(digitsValue digits : ℤ) else (digitsValue digits : ℤ)

/-- A driver that returns what was last set: `Set` of a payload succeeds, and a
`Get` of the same key right after it returns that payload and no error. -/
def ReturnsLastSet {δ : Type} (c : RedisClient δ) : Prop :=
  ∀ d key payload ttl,
    (c.Set d key (some payload) ttl).1 = none ∧
    (c.Get (c.Set d key (some payload) ttl).2 key).1 = some payload ∧
    (c.Get (c.Set d key (some payload) ttl).2 key).2.1 = none

/-- The pairs that the specification of `MultiSet` asks to hand to the driver:
for each entry of the map whose value marshals without error and whose key
builds, the cache key and the payload; nothing for any other entry. -/
def survivingPairs {δ O : Type} [BinaryMarshaling O] (this : RedisStorage δ O)
    (valueMap : List (Option Key × O)) : List Bytes :=
  valueMap.flatMap (fun entry =>
    match Marshal this.encoding entry.2, BuildCacheKey this.KeyPrefix entry.1 with
    | .returns (buf, none), (cacheKey, none) => [some cacheKey, buf]
    | _, _ => [])

/-- A value with both capabilities, as `BytesValue` of redis_storage.go has the
first: it marshals to its own payload and unmarshals by taking the data. -/
structure Blob where
  payload : string
deriving DecidableEq, Repr

instance : BinaryMarshaling Blob where
  MarshalBinary b := some (some b.payload, none)
  UnmarshalBinary _ := some (fun data => (none, ⟨data.toString⟩))

/-- A strategy for `Blob` that always fails. -/
def FailingEncoding : Encoding Blob where
  Marshal _ := .returns (none, some (.Driver "" "cannot encode"))
  Unmarshal _ b := .returns (some (.Driver "" "cannot decode"), b)

/-- A strategy for `Blob` that writes the payload between brackets. -/
def BracketEncoding : Encoding Blob where
  Marshal b := .returns (some ("[" ++ b.payload ++ "]"), none)
  Unmarshal data _ := .returns (none, ⟨(data.toString.drop 1).dropRight 1⟩)

/-- `StringEncoding` made strict: a value that is not a string or a pointer to
one is an encode error instead of an empty payload. -/
def StrictStringEncoding : Encoding Value where
  Marshal
    | .string v => .returns (some v, none)
    | .stringPtr (some v) => .returns (some v, none)
    | _ => .returns (none, some (.Driver "" "unsupported type"))
  Unmarshal := StringEncoding.Unmarshal

/-- The in-memory redis with its calls recorded. -/
def recordedRedis : RedisClient (List (string × string) × List RedisCall) := Recording MemRedis

/-- A redis tier of strings under the prefix `user_profile`, no expiry. -/
def stringTier : RedisStorage (List (string × string) × List RedisCall) Value :=
  NewRedisStorage recordedRedis "user_profile" 0 (some StringEncoding)
    (fun _ => .stringPtr (some "")) false

/-- A redis tier of strings with the strict encoding, expiry 60. -/
def strictTier : RedisStorage (List (string × string) × List RedisCall) Value :=
  NewRedisStorage recordedRedis "doc" 60 (some StrictStringEncoding)
    (fun _ => .stringPtr (some "")) false

/-- A redis tier of integers under the prefix `n`, over the plain in-memory
redis. -/
def int64Tier : RedisStorage (List (string × string)) Value :=
  NewRedisStorage MemRedis "n" 0 (some Int64Encoding) (fun _ => .int64Ptr (some 0)) false

/-- A counter tier whose prefix has a `_`, over the recorded redis. -/
def userCounterTier : CounterRedisStorage (List (string × string) × List RedisCall) :=
  NewCounterRedisStorage recordedRedis "user_cnt" "user_cnt" 0

/-- A redis tier built with the same prefix as `userCounterTier`. -/
def userRedisTier : RedisStorage (List (string × string) × List RedisCall) Value :=
  NewRedisStorage recordedRedis "user_cnt" 0 (some Int64Encoding)
    (fun _ => .int64Ptr (some 0)) false

/-- The in-memory tier given, next to the six methods of `Storage`, the
methods that `CounterStorage` lists and counter operations to go with them.
Its method set still has one `Get` and one `Set`, those of `Storage`. -/
def CountingStorage : Storage MemState Row where
  Get := MemStorage.Get
  Set := MemStorage.Set
  Add := MemStorage.Add
  MultiGet := MemStorage.MultiGet
  MultiSet := MemStorage.MultiSet
  Delete := MemStorage.Delete
  dynamicType :=
    ⟨StorageInterface ++ CounterStorageInterface,
      some ⟨fun s _ step => (s.nextId + step, none, ⟨s.data, s.nextId + step⟩),
        fun s _ step => (s.nextId - step, none, ⟨s.data, s.nextId - step⟩)⟩⟩

/-- A proxy over two such tiers. -/
def countingProxy : StorageProxy MemState MemState Row :=
  NewStorageProxy CountingStorage CountingStorage

/-- A map with five entries for the strict tier: two that can be written, one
whose value does not marshal, one whose key has the empty string and one whose
key is nil. -/
def mixedMap : List (Option Key × Value) :=
  [(some (.String "a"), .string "x"),
   (some (.String "b"), .other "struct"),
   (some (.String ""), .string "y"),
   (none, .string "z"),
   (some (.Int 3), .stringPtr (some "w"))]

/-! ## Definitions for the remaining theorems -/

/-- The dynamic types that the type switch of `Int64Encoding.Marshal` and
`IntEncoding.Marshal` handles: `int64`, `*int64`, `int`, `*int`. -/
def handledByIntegerMarshal : Value → Bool
  | .int64 _ => true
  | .int64Ptr _ => true
  | .int _ => true
  | .intPtr _ => true
  | _ => false

/-- The dynamic types that the type switch of `StringEncoding.Marshal` handles:
`string` and `*string`. -/
def handledByStringMarshal : Value → Bool
  | .string _ => true
  | .stringPtr _ => true
  | _ => false

/-- A nil pointer of one of the pointer types. -/
def isNilPointer : Value → Bool
  | .int64Ptr none => true
  | .intPtr none => true
  | .stringPtr none => true
  | _ => false

/-- A driver that keeps the result of a decrement under the key, as redis
DECRBY does: a `Get` of the key right after `Decr` returns the decimal text of
the result and no error. -/
def StoresDecrResult {δ : Type} (c : RedisClient δ) : Prop :=
  ∀ d key step,
    (c.Get (c.Decr d key step).2.2 key).1 = some (Itoa (c.Decr d key step).1) ∧
    (c.Get (c.Decr d key step).2.2 key).2.1 = none

/-- A counter tier with expiry 30 under the prefix `cnt`, over the recorded
redis. -/
def expiringCounterTier : CounterRedisStorage (List (string × string) × List RedisCall) :=
  NewCounterRedisStorage recordedRedis "cnt" "cnt" 30

/-- From the specification of `MultiGet`: the cache keys of the requested keys,
in request order. -/
def cacheKeysOf (keyPrefix : string) (ks : List Key) : List string :=
  ks.map (fun k => (BuildCacheKey keyPrefix (some k)).1)

/-- From the specification of `MultiGet`: the entries `keys[i] -> decode(payload[i])`
for the positions `i` whose payload is present and decodes, in request
order. -/
def decodedEntries {O : Type} (decode : string → Outcome (Option O)) :
    List Key → List (Option string) → ValuesMap O
  | k :: keys, some payload :: payloads =>
    match decode payload with
    | .returns (some object) => (k, object) :: decodedEntries decode keys payloads
    | _ => decodedEntries decode keys payloads
  | _ :: keys, none :: payloads => decodedEntries decode keys payloads
  | _, _ => []

/-- From the specification of `MultiGet`, for a tier whose driver is `c` with
its calls recorded. With an empty key list the call succeeds and the driver is
not called. When a requested key fails to build the call fails and the driver
is not called. When the list is not empty and every key builds, one `MGet` is
issued for the cache keys in request order; if that read fails the call fails
and the map is left as it was; otherwise the map gains the decoded entries, a
later position winning for a repeated key, and the call succeeds. The last
part is for a driver that returns no more payloads than it was asked for and
a decoding that returns. -/
def MultiGetSpec {δ O : Type} (c : RedisClient δ) (keyPrefix : string)
    (decode : string → Outcome (Option O))
    (MultiGet : δ × List RedisCall → List (Option Key) → ValuesMap O →
      Outcome (Option Error × ValuesMap O) × (δ × List RedisCall)) : Prop :=
  ∀ (d : δ) (log : List RedisCall) (values : ValuesMap O),
    MultiGet (d, log) [] values = (.returns (none, values), (d, log)) ∧
    (∀ keys : List (Option Key), (∃ key ∈ keys, (BuildCacheKey keyPrefix key).2 ≠ none) →
      ∃ err, MultiGet (d, log) keys values = (.returns (some err, values), (d, log))) ∧
    (∀ ks : List Key, ks ≠ [] → (∀ k ∈ ks, (BuildCacheKey keyPrefix (some k)).2 = none) →
      (MultiGet (d, log) (ks.map some) values).2 =
        ((c.MGet d (cacheKeysOf keyPrefix ks)).2.2,
          log ++ [.MGet (cacheKeysOf keyPrefix ks)]) ∧
      (∀ err, (c.MGet d (cacheKeysOf keyPrefix ks)).2.1 = some err →
        (MultiGet (d, log) (ks.map some) values).1 =
          .returns (some (.Wrap err "redis get error"), values)) ∧
      ((c.MGet d (cacheKeysOf keyPrefix ks)).2.1 = none →
        (c.MGet d (cacheKeysOf keyPrefix ks)).1.length ≤ ks.length →
        (∀ payload, some payload ∈ (c.MGet d (cacheKeysOf keyPrefix ks)).1 →
          (decode payload).returned = true) →
        (MultiGet (d, log) (ks.map some) values).1 =
          .returns (none, mergeInto values
            (decodedEntries decode ks (c.MGet d (cacheKeysOf keyPrefix ks)).1).reverse)))

/-- An error of a collaborator whose type, declared in another package, is
also named `EmptyObjectError`: not the `EmptyObjectError` of this package. -/
def foreignMiss : Error := .Driver "EmptyObjectError" "record not found"

/-- A proxy whose preferred tier answers every read with `foreignMiss`. -/
def foreignMissProxy : StorageProxy MemState MemState Row :=
  NewStorageProxy (ReadFailing foreignMiss) MemStorage

/-- A proxy with the preferred tier of `foreignMissProxy` over a backup tier
that fails every read. -/
def foreignMissDownProxy : StorageProxy MemState MemState Row :=
  NewStorageProxy (ReadFailing foreignMiss) (ReadFailing downErr)

/-- A map for the string tier with a nil pointer among its values. -/
def nilPointerMap : List (Option Key × Value) :=
  [(some (.String "a"), .string "x"), (some (.String "b"), .stringPtr none)]

/-- A map for the strict tier none of whose entries can be written. -/
def hopelessMap : List (Option Key × Value) :=
  [(some (.String "b"), .other "struct"), (none, .string "z")]

/-! ## Lemmas on keys and cache keys -/

theorem Join_pair (p s : string) : Join [p, s] "_" = p ++ "_" ++ s := by
  simp [Join, String.intercalate, String.intercalate.go]

theorem digitChar_toNat (d : Nat) (h : d < 10) : (digitChar d).toNat - 48 = d := by
  interval_cases d <;> decide

theorem digitChar_ne_minus (d : Nat) (h : d < 10) : digitChar d ≠ '-' := by
  interval_cases d <;> decide

theorem formatBits_acc (fuel u : Nat) (acc : List Char) :
    formatBits fuel u acc = formatBits fuel u [] ++ acc := by
  induction fuel generalizing u acc with
  | zero => simp [formatBits]
  | succ n ih =>
    simp only [formatBits]
    split
    · simp
    · rw [ih (u / 10) (digitChar (u % 10) :: acc), ih (u / 10) [digitChar (u % 10)]]
      simp

theorem digitsValue_snoc (cs : List Char) (c : Char) :
    digitsValue (cs ++ [c]) = digitsValue cs * 10 + (c.toNat - 48) := by
  simp [digitsValue, List.foldl_append]

theorem digitsValue_formatBits (fuel u : Nat) (h : u < fuel) :
    digitsValue (formatBits fuel u []) = u := by
  induction fuel generalizing u with
  | zero => omega
  | succ n ih =>
    simp only [formatBits]
    split
    · rename_i hu
      simp [digitsValue, digitChar_toNat u hu]
    · rename_i hu
      rw [formatBits_acc, digitsValue_snoc, ih (u / 10) (by omega),
        digitChar_toNat (u % 10) (Nat.mod_lt _ (by decide))]
      omega

theorem formatBits_head (fuel u : Nat) :
    ∃ d cs, d < 10 ∧ formatBits (fuel + 1) u [] = digitChar d :: cs := by
  induction fuel generalizing u with
  | zero =>
    simp only [formatBits]
    split
    · rename_i hu
      exact ⟨u, [], hu, rfl⟩
    · exact ⟨u % 10, [], Nat.mod_lt _ (by decide), rfl⟩
  | succ n ih =>
    rw [formatBits]
    split
    · rename_i hu
      exact ⟨u, [], hu, rfl⟩
    · obtain ⟨d, cs, hd, hcs⟩ := ih (u / 10)
      rw [formatBits_acc, hcs]
      exact ⟨d, cs ++ [digitChar (u % 10)], hd, rfl⟩

theorem Atoi_Itoa (i : ℤ) : Atoi (Itoa i) = i := by
  unfold Itoa
  split
  · rename_i hneg
    simp only [Atoi, digitsValue_formatBits _ _ (Nat.lt_succ_self _)]
    omega
  · rename_i hpos
    obtain ⟨d, cs, hd, hcs⟩ := formatBits_head i.natAbs i.natAbs
    have hne : digitChar d ≠ '-' := digitChar_ne_minus d hd
    have hv := digitsValue_formatBits (i.natAbs + 1) i.natAbs (Nat.lt_succ_self _)
    rw [hcs] at hv
    simp only [Atoi, hcs]
    split
    · rename_i heq
      simp only [List.cons.injEq] at heq
      exact absurd heq.1 hne
    · rw [hv]
      omega

theorem Itoa_injective (i j : ℤ) (h : Itoa i = Itoa j) : i = j := by
  rw [← Atoi_Itoa i, ← Atoi_Itoa j, h]

theorem Itoa_ne_empty (i : ℤ) : Itoa i ≠ "" := by
  unfold Itoa
  split
  · intro h
    have := congrArg String.data h
    simp at this
  · obtain ⟨d, cs, _, hcs⟩ := formatBits_head i.natAbs i.natAbs
    intro h
    have := congrArg String.data h
    simp [hcs] at this

theorem append_sep_inj (c : Char) (l₁ l₂ r₁ r₂ : List Char)
    (h₁ : c ∉ l₁) (h₂ : c ∉ l₂) (h : l₁ ++ c :: r₁ = l₂ ++ c :: r₂) :
    l₁ = l₂ ∧ r₁ = r₂ := by
  induction l₁ generalizing l₂ with
  | nil =>
    cases l₂ with
    | nil => simpa using h
    | cons b t =>
      simp only [List.nil_append, List.cons_append, List.cons.injEq] at h
      simp [h.1] at h₂
  | cons a t ih =>
    cases l₂ with
    | nil =>
      simp only [List.nil_append, List.cons_append, List.cons.injEq] at h
      simp [h.1] at h₁
    | cons b t₂ =>
      simp only [List.cons_append, List.cons.injEq] at h
      simp only [List.mem_cons, not_or] at h₁ h₂
      obtain ⟨rfl, ht⟩ := h
      obtain ⟨e₁, e₂⟩ := ih t₂ h₁.2 h₂.2 ht
      exact ⟨by rw [e₁], e₂⟩

theorem BuildCacheKey_valid (p : string) (k : Key) (h : k.toString ≠ "") :
    BuildCacheKey p (some k) = (p ++ "_" ++ k.toString, none) := by
  simp [BuildCacheKey, h, Join_pair]


/-! ## Lemmas on maps and on the in-memory tier -/

/-- C9: `BuildCacheKey(prefix, key)` returns an error, together with the empty
cache key, exactly when `key` is nil or `key.String()` is the empty string; in
every other case it returns `prefix ++ "_" ++ key.String()` and no error. For
the `String` variant that is every non-empty string, for the `Int` variant
every integer. -/
theorem BuildCacheKey_error_iff (p : string) (key : Option Key) :
    ((BuildCacheKey p key).2 ≠ none ↔ (key = none ∨ ∃ k, key = some k ∧ k.toString = "")) ∧
    ((BuildCacheKey p key).2 ≠ none → (BuildCacheKey p key).1 = "") ∧
    (∀ k, key = some k → k.toString ≠ "" →
      BuildCacheKey p key = (p ++ "_" ++ k.toString, none)) ∧
    (∀ s, s ≠ "" → BuildCacheKey p (some (.String s)) = (p ++ "_" ++ s, none)) ∧
    (∀ i, BuildCacheKey p (some (.Int i)) = (p ++ "_" ++ Itoa i, none)) := by
  refine ⟨?_, ?_, ?_, ?_, ?_⟩
  · cases key with
    | none => simp [BuildCacheKey]
    | some k =>
      by_cases hk : k.toString = ""
      · simp [BuildCacheKey, hk]
      · simp [BuildCacheKey, hk]
  · cases key with
    | none => simp [BuildCacheKey]
    | some k =>
      by_cases hk : k.toString = ""
      · simp [BuildCacheKey, hk]
      · simp [BuildCacheKey, hk]
  · intro k hkey hk
    subst hkey
    exact BuildCacheKey_valid p k hk
  · intro s hs
    exact BuildCacheKey_valid p (.String s) hs
  · intro i
    exact BuildCacheKey_valid p (.Int i) (Itoa_ne_empty i)

/-- C10, as stated, fails: the distinct valid keys `Int(5)` and `String("5")`
get the same cache key under the same prefix, and the distinct pairs
(`a_b`, `c`) and (`a`, `b_c`) get the same cache key. -/
theorem BuildCacheKey_collisions :
    (BuildCacheKey "p" (some (.Int 5)) = BuildCacheKey "p" (some (.String "5")) ∧
      Key.Int 5 ≠ Key.String "5" ∧
      (BuildCacheKey "p" (some (.Int 5))).2 = none ∧
      (BuildCacheKey "p" (some (.String "5"))).2 = none) ∧
    (BuildCacheKey "a_b" (some (.String "c")) = BuildCacheKey "a" (some (.String "b_c")) ∧
      ("a_b" : string) ≠ "a" ∧
      Key.String "c" ≠ Key.String "b_c" ∧
      (BuildCacheKey "a_b" (some (.String "c"))).2 = none ∧
      (BuildCacheKey "a" (some (.String "b_c"))).2 = none) := by
  decide

/-- C10, amended: when two valid keys get the same cache key under prefixes
that are equal, or that both contain no `_`, the prefixes are equal and the
keys have the same canonical string; the keys themselves are then equal when
they are of the same key type. -/
theorem BuildCacheKey_injective (p₁ p₂ : string) (k₁ k₂ : Key)
    (h₁ : k₁.toString ≠ "") (h₂ : k₂.toString ≠ "")
    (hp : p₁ = p₂ ∨ ('_' ∉ p₁.data ∧ '_' ∉ p₂.data))
    (h : BuildCacheKey p₁ (some k₁) = BuildCacheKey p₂ (some k₂)) :
    p₁ = p₂ ∧ k₁.toString = k₂.toString ∧ (SameKeyType k₁ k₂ = true → k₁ = k₂) := by
  rw [BuildCacheKey_valid p₁ k₁ h₁, BuildCacheKey_valid p₂ k₂ h₂] at h
  have hd : p₁.data ++ '_' :: k₁.toString.data = p₂.data ++ '_' :: k₂.toString.data := by
    have := congrArg String.data (congrArg Prod.fst h)
    simpa using this
  have hps : p₁ = p₂ ∧ k₁.toString = k₂.toString := by
    rcases hp with hp | ⟨hp₁, hp₂⟩
    · subst hp
      have := List.append_cancel_left hd
      simp only [List.cons.injEq, true_and] at this
      exact ⟨rfl, String.ext this⟩
    · obtain ⟨e₁, e₂⟩ := append_sep_inj '_' _ _ _ _ hp₁ hp₂ hd
      exact ⟨String.ext e₁, String.ext e₂⟩
  refine ⟨hps.1, hps.2, ?_⟩
  intro hs
  have hk := hps.2
  cases k₁ with
  | String s₁ =>
    cases k₂ with
    | String s₂ =>
      simp only [Key.toString] at hk
      rw [hk]
    | Int j => simp [SameKeyType] at hs
  | Int i =>
    cases k₂ with
    | String s₂ => simp [SameKeyType] at hs
    | Int j =>
      simp only [Key.toString] at hk
      rw [Itoa_injective i j hk]

/-- The amended C10 at the prefix `user` and the keys `Int 5`, `Int 5`. -/
theorem BuildCacheKey_injective_witness :
    ("user" : string) = "user" ∧ (Key.Int 5).toString = (Key.Int 5).toString ∧
      (SameKeyType (Key.Int 5) (Key.Int 5) = true → Key.Int 5 = Key.Int 5) :=
  BuildCacheKey_injective "user" "user" (.Int 5) (.Int 5) (by decide) (by decide)
    (Or.inr ⟨by decide, by decide⟩) rfl

/-! ## Counter tier (counter_storage.go) -/

/-- Whenever the key builds and the driver's decrement result is negative,
`Decr` returns the value 0 and the nil error, whatever error the driver
returned, and makes no `Expire` call. -/
theorem CounterRedisStorage_Decr_negative {δ : Type} (this : CounterRedisStorage δ) (d : δ)
    (k : Key) (step : ℤ) (hk : k.toString ≠ "")
    (hneg : (this.client.Decr d (this.KeyPrefix ++ "_" ++ k.toString) step).1 < 0) :
    this.Decr d (some k) step =
      (0, none, (this.client.Decr d (this.KeyPrefix ++ "_" ++ k.toString) step).2.2) := by
  unfold CounterRedisStorage.Decr
  rw [BuildCacheKey_valid _ k hk]
  simp only
  rw [if_pos hneg]

/-- C8: starting from a counter at 0, the driver's `Decr` by 1 yields -1, and
`CounterRedisStorage.Decr(key, 1)` returns the value 0 with a nil error (and the
driver keeps -1); the claim asks for a non-nil error. -/
theorem CounterRedisStorage_Decr_below_zero :
    MemRedis.Decr [("cnt_a", "0")] "cnt_a" 1 = (-1, none, [("cnt_a", "-1")]) ∧
    counterTier.Decr [("cnt_a", "0")] (some (.String "a")) 1 = (0, none, [("cnt_a", "-1")]) := by
  decide

/-! ## Storage proxy (storage.go): Get -/

theorem TypeName_of_IsErrorEmpty (e : Error) (h : IsErrorEmpty (some e) = true) :
    TypeName e = "EmptyObjectError" := by
  cases e <;> simp_all [TypeName, IsErrorEmpty]

/-- C4, as stated, fails: the preferred tier fails with an error that is not a
miss, not being the `EmptyObjectError` of the package (`IsErrorEmpty` rejects
it), and yet the error is not returned at once: its type is named
`EmptyObjectError`, which is what `StorageProxy.Get` tests, so the backup tier
is consulted and the preferred tier is written. Over a backup tier holding the
key `Get` returns success; over a backup tier that is down `Get` fails with the
error of the backup tier, the preferred tier not having missed. -/
theorem StorageProxy_Get_foreign_miss :
    foreignMissProxy.PreferedStorage.Get coldCache.prefered (some (.Int 7)) blankRow =
      (some foreignMiss, blankRow, emptyTier) ∧
    IsErrorEmpty (some foreignMiss) = false ∧
    foreignMissProxy.Get coldCache (some (.Int 7)) blankRow =
      (none, rowX, ⟨warmedTier, tierWithX,
        [.Get .Prefered (some (.Int 7)), .Get .Backup (some (.Int 7)),
          .Set .Prefered (some (.Int 7)) rowX]⟩) ∧
    foreignMissDownProxy.Get coldCache (some (.Int 7)) blankRow =
      (some downErr, blankRow, ⟨emptyTier, tierWithX,
        [.Get .Prefered (some (.Int 7)), .Get .Backup (some (.Int 7))]⟩) := by
  decide

/-- C4, amended: `StorageProxy.Get` takes an error of the preferred tier as a
miss when the name of its dynamic type is `EmptyObjectError`; the
`EmptyObjectError` of the package is such an error. `Get` fails in exactly
three cases, with the error of the tier that failed: (1) the preferred `Get`
fails with an error that is not a miss in this sense, and then the backup tier
is neither called nor changed; (2) the preferred tier misses and the backup
`Get` fails (a backup miss included), and then no `Set` reaches the preferred
tier; (3) the preferred tier misses, the backup `Get` succeeds and the backfill
`Set` on the preferred tier fails. In every other case `Get` returns the nil
error. -/
theorem StorageProxy_Get_failures {σp σb O : Type} (this : StorageProxy σp σb O)
    (w : World σp σb O) (key : Option Key) (value : O) :
    (∀ e, IsErrorEmpty (some e) = true → TypeName e = "EmptyObjectError") ∧
    (∀ e v₁ sp₁, this.PreferedStorage.Get w.prefered key value = (some e, v₁, sp₁) →
      TypeName e ≠ "EmptyObjectError" →
      this.Get w key value = (some e, v₁, ⟨sp₁, w.backup, w.calls ++ [.Get .Prefered key]⟩)) ∧
    (∀ e v₁ sp₁ e₂ v₂ sb₁,
      this.PreferedStorage.Get w.prefered key value = (some e, v₁, sp₁) →
      TypeName e = "EmptyObjectError" →
      this.BackupStorage.Get w.backup key v₁ = (some e₂, v₂, sb₁) →
      this.Get w key value =
        (some e₂, v₂, ⟨sp₁, sb₁, w.calls ++ [.Get .Prefered key, .Get .Backup key]⟩)) ∧
    (∀ e v₁ sp₁ v₂ sb₁ e₃ sp₂,
      this.PreferedStorage.Get w.prefered key value = (some e, v₁, sp₁) →
      TypeName e = "EmptyObjectError" →
      this.BackupStorage.Get w.backup key v₁ = (none, v₂, sb₁) →
      this.PreferedStorage.Set sp₁ key v₂ = (some e₃, sp₂) →
      this.Get w key value =
        (some e₃, v₂, ⟨sp₂, sb₁,
          w.calls ++ [.Get .Prefered key, .Get .Backup key, .Set .Prefered key v₂]⟩)) ∧
    ((this.Get w key value).1 ≠ none →
      ∃ e v₁ sp₁, this.PreferedStorage.Get w.prefered key value = (some e, v₁, sp₁) ∧
        (TypeName e ≠ "EmptyObjectError" ∨
          (TypeName e = "EmptyObjectError" ∧
            ((∃ e₂ v₂ sb₁, this.BackupStorage.Get w.backup key v₁ = (some e₂, v₂, sb₁)) ∨
              ∃ v₂ sb₁ e₃ sp₂, this.BackupStorage.Get w.backup key v₁ = (none, v₂, sb₁) ∧
                this.PreferedStorage.Set sp₁ key v₂ = (some e₃, sp₂))))) := by
  refine ⟨TypeName_of_IsErrorEmpty, ?_, ?_, ?_, ?_⟩
  · intro e v₁ sp₁ hp ht
    simp [StorageProxy.Get, hp, ht]
  · intro e v₁ sp₁ e₂ v₂ sb₁ hp ht hb
    simp [StorageProxy.Get, hp, ht, hb]
  · intro e v₁ sp₁ v₂ sb₁ e₃ sp₂ hp ht hb hs
    simp [StorageProxy.Get, hp, ht, hb, hs]
  · intro hfail
    rcases hp : this.PreferedStorage.Get w.prefered key value with ⟨e?, v₁, sp₁⟩
    cases e? with
    | none => simp [StorageProxy.Get, hp] at hfail
    | some e =>
      refine ⟨e, v₁, sp₁, rfl, ?_⟩
      by_cases ht : TypeName e = "EmptyObjectError"
      · right
        refine ⟨ht, ?_⟩
        rcases hb : this.BackupStorage.Get w.backup key v₁ with ⟨e₂?, v₂, sb₁⟩
        cases e₂? with
        | some e₂ => exact Or.inl ⟨e₂, v₂, sb₁, rfl⟩
        | none =>
          right
          rcases hs : this.PreferedStorage.Set sp₁ key v₂ with ⟨e₃?, sp₂⟩
          cases e₃? with
          | some e₃ => exact ⟨v₂, sb₁, e₃, sp₂, rfl, hs⟩
          | none => simp [StorageProxy.Get, hp, ht, hb, hs] at hfail
      · exact Or.inl ht

/-- C4 at four concrete proxies: a preferred tier whose reads fail, two empty
tiers (the backup misses too), a preferred tier that refuses the backfill, and
a preferred tier whose miss is of a type of another package over a backup tier
that is down. -/
theorem StorageProxy_Get_failures_witness :
    unreadableCacheProxy.Get coldCache (some (.Int 7)) blankRow =
      (some downErr, blankRow, ⟨emptyTier, tierWithX, [.Get .Prefered (some (.Int 7))]⟩) ∧
    healthyProxy.Get emptyWorld (some (.Int 7)) blankRow =
      (some (.EmptyObjectError "7"), blankRow, ⟨emptyTier, emptyTier,
        [.Get .Prefered (some (.Int 7)), .Get .Backup (some (.Int 7))]⟩) ∧
    readOnlyCacheProxy.Get coldCache (some (.Int 7)) blankRow =
      (some downErr, rowX, ⟨emptyTier, tierWithX,
        [.Get .Prefered (some (.Int 7)), .Get .Backup (some (.Int 7)),
          .Set .Prefered (some (.Int 7)) rowX]⟩) ∧
    foreignMissDownProxy.Get coldCache (some (.Int 7)) blankRow =
      (some downErr, blankRow, ⟨emptyTier, tierWithX,
        [.Get .Prefered (some (.Int 7)), .Get .Backup (some (.Int 7))]⟩) :=
  ⟨(StorageProxy_Get_failures unreadableCacheProxy coldCache (some (.Int 7)) blankRow).2.1
      downErr blankRow emptyTier (by decide) (by decide),
    (StorageProxy_Get_failures healthyProxy emptyWorld (some (.Int 7)) blankRow).2.2.1
      (.EmptyObjectError "7") blankRow emptyTier (.EmptyObjectError "7") blankRow emptyTier
      (by decide) (by decide) (by decide),
    (StorageProxy_Get_failures readOnlyCacheProxy coldCache (some (.Int 7)) blankRow).2.2.2.1
      (.EmptyObjectError "7") blankRow emptyTier rowX tierWithX downErr emptyTier
      (by decide) (by decide) (by decide) (by decide),
    (StorageProxy_Get_failures foreignMissDownProxy coldCache (some (.Int 7)) blankRow).2.2.1
      foreignMiss blankRow emptyTier downErr blankRow tierWithX
      (by decide) (by decide) (by decide)⟩

/-- C5: `StorageProxy.Add` with a non-nil object calls `Add` on the backup tier
first; if that fails its error is returned and the preferred tier is neither
called nor changed. Otherwise `Add` on the preferred tier is called second,
with the object as the backup insert left it, and under the key
`object.GetKey()` when the object implements `KeyChangeable` and `KeyGetter`
and `IsKeyChangeable()` is true, under the caller's key in every other case;
the result of the preferred `Add` is the result of the call. -/
theorem StorageProxy_Add_order {σp σb O : Type} [Object O] (this : StorageProxy σp σb O)
    (w : World σp σb O) (key : Option Key) (object : O) :
    (∀ e o₁ sb₁, this.BackupStorage.Add w.backup key object = (some e, o₁, sb₁) →
      this.Add w key (some object) =
        (some e, ⟨w.prefered, sb₁, w.calls ++ [.Add .Backup key object]⟩)) ∧
    (∀ o₁ sb₁ k₁, this.BackupStorage.Add w.backup key object = (none, o₁, sb₁) →
      Object.IsKeyChangeable o₁ = some true → Object.GetKey o₁ = some k₁ →
      this.Add w key (some object) =
        ((this.PreferedStorage.Add w.prefered k₁ o₁).1,
          ⟨(this.PreferedStorage.Add w.prefered k₁ o₁).2.2, sb₁,
            w.calls ++ [.Add .Backup key object, .Add .Prefered k₁ o₁]⟩)) ∧
    (∀ o₁ sb₁, this.BackupStorage.Add w.backup key object = (none, o₁, sb₁) →
      ¬ (Object.IsKeyChangeable o₁ = some true ∧ (Object.GetKey o₁).isSome = true) →
      this.Add w key (some object) =
        ((this.PreferedStorage.Add w.prefered key o₁).1,
          ⟨(this.PreferedStorage.Add w.prefered key o₁).2.2, sb₁,
            w.calls ++ [.Add .Backup key object, .Add .Prefered key o₁]⟩)) := by
  refine ⟨?_, ?_, ?_⟩
  · intro e o₁ sb₁ hb
    simp [StorageProxy.Add, hb]
  · intro o₁ sb₁ k₁ hb hc hg
    rcases hp : this.PreferedStorage.Add w.prefered k₁ o₁ with ⟨e?, o₂, sp₁⟩
    cases e? <;> simp [StorageProxy.Add, hb, hc, hg, hp]
  · intro o₁ sb₁ hb hno
    have hkey : (match Object.IsKeyChangeable o₁, Object.GetKey o₁ with
        | some changeable, some k => if changeable then k else key
        | _, _ => key) = key := by
      rcases hc : Object.IsKeyChangeable o₁ with _ | c
      · rfl
      · rcases hg : Object.GetKey o₁ with _ | k
        · rfl
        · cases c
          · rfl
          · exact absurd ⟨hc, by simp [hg]⟩ hno
    rcases hp : this.PreferedStorage.Add w.prefered key o₁ with ⟨e?, o₂, sp₁⟩
    cases e? <;> simp [StorageProxy.Add, hb, hkey, hp]

/-- C5 on a cache in front of a database that assigns the identity 42 to the
new row: the cache is written under `Int 42`, not under the placeholder key
`Int 0`; a row whose key is not changeable is written under the caller's key;
and when the database refuses the insert the cache is not called. -/
theorem StorageProxy_Add_order_witness :
    dbBackedProxy.Add freshDb (some (.Int 0)) (some newRow) =
      (none, ⟨⟨[(.Int 42, ⟨42, "new", true⟩)], 1⟩, ⟨[(.Int 42, ⟨42, "new", true⟩)], 43⟩,
        [.Add .Backup (some (.Int 0)) newRow,
          .Add .Prefered (some (.Int 42)) ⟨42, "new", true⟩]⟩) ∧
    dbBackedProxy.Add freshDb (some (.String "k")) (some rowX) =
      (none, ⟨⟨[(.String "k", rowX)], 1⟩, ⟨[(.String "k", rowX)], 42⟩,
        [.Add .Backup (some (.String "k")) rowX, .Add .Prefered (some (.String "k")) rowX]⟩) ∧
    readOnlyBackupProxy.Add emptyWorld (some (.Int 7)) (some rowX) =
      (some downErr, ⟨emptyTier, emptyTier, [.Add .Backup (some (.Int 7)) rowX]⟩) :=
  ⟨(StorageProxy_Add_order dbBackedProxy freshDb (some (.Int 0)) newRow).2.1
      ⟨42, "new", true⟩ ⟨[(.Int 42, ⟨42, "new", true⟩)], 43⟩ (some (.Int 42))
      (by decide) (by decide) (by decide),
    (StorageProxy_Add_order dbBackedProxy freshDb (some (.String "k")) rowX).2.2
      rowX ⟨[(.String "k", rowX)], 42⟩ (by decide) (by decide),
    (StorageProxy_Add_order readOnlyBackupProxy emptyWorld (some (.Int 7)) rowX).1
      downErr rowX emptyTier (by decide)⟩

theorem mem_missedKeys {O : Type} (keys : List Key) (m : ValuesMap O) (k : Key) :
    k ∈ missedKeys keys m ↔ k ∈ keys ∧ MapIndex m k = none := by
  simp [missedKeys, List.mem_filter]

/-- When the preferred `MultiGet` returns an error, the proxy returns the nil
error at once: the map is as the preferred tier left it and the backup tier is
neither called nor changed. -/
theorem StorageProxy_MultiGet_prefered_error {σp σb O : Type} (this : StorageProxy σp σb O)
    (w : World σp σb O) (keys : List Key) (valuesMap m₁ : ValuesMap O) (e : Error) (sp₁ : σp)
    (hpref : this.PreferedStorage.MultiGet w.prefered keys valuesMap = (some e, m₁, sp₁)) :
    this.MultiGet w keys valuesMap =
      (none, m₁, ⟨sp₁, w.backup, w.calls ++ [.MultiGet .Prefered keys]⟩) := by
  simp [StorageProxy.MultiGet, hpref]

/-- C3: the preferred tier fails its `MultiGet` and the backup tier holds
`rowX` under the requested key `Int 7` (its own `MultiGet` returns it). The
proxy call does not fail, but it makes no backup read: the only call is the
preferred `MultiGet`, and the result map is empty, where the claim asks for
the key the backup holds. -/
theorem StorageProxy_MultiGet_degraded :
    unreadableCacheProxy.PreferedStorage.MultiGet coldCache.prefered [.Int 7] [] =
      (some downErr, [], emptyTier) ∧
    unreadableCacheProxy.BackupStorage.MultiGet coldCache.backup [.Int 7] [] =
      (none, [(.Int 7, rowX)], tierWithX) ∧
    unreadableCacheProxy.MultiGet coldCache [.Int 7] [] =
      (none, [], ⟨emptyTier, tierWithX, [.MultiGet .Prefered [.Int 7]]⟩) := by
  decide

theorem digitChar_isDigit (d : Nat) (h : d < 10) : strconv.isDigit (digitChar d) = true := by
  interval_cases d <;> decide

theorem digitChar_ne_plus (d : Nat) (h : d < 10) : digitChar d ≠ '+' := by
  interval_cases d <;> decide

theorem formatBits_all_isDigit (fuel u : Nat) :
    (formatBits fuel u []).all strconv.isDigit = true := by
  induction fuel generalizing u with
  | zero => simp [formatBits]
  | succ n ih =>
    simp only [formatBits]
    split
    · rename_i hu
      simp [digitChar_isDigit u hu]
    · rw [formatBits_acc]
      simp only [List.all_append, ih, Bool.true_and, List.all_cons, List.all_nil, Bool.and_true]
      exact digitChar_isDigit _ (Nat.mod_lt _ (by decide))

theorem isDigit_ne_sign (c : Char) (h : strconv.isDigit c = true) : c ≠ '+' ∧ c ≠ '-' := by
  constructor
  · intro hc
    subst hc
    exact absurd h (by decide)
  · intro hc
    subst hc
    exact absurd h (by decide)

theorem parseMagnitude_ok_iff (neg : Bool) (digits : List Char) (v : ℤ) :
    strconv.parseMagnitude neg digits 0 = (v, none) ↔
      digits ≠ [] ∧ digits.all strconv.isDigit = true ∧
      v = (if neg = true then -(digitsValue digits : ℤ) else (digitsValue digits : ℤ)) ∧
      IsInt64 v := by
  unfold strconv.parseMagnitude IsInt64
  simp only [strconv.IntSize, if_true]
  by_cases hne : digits = []
  · simp [hne, strconv.ErrSyntax]
  · by_cases hall : digits.all strconv.isDigit = true
    · have hall' : ¬ (digits = [] ∨ digits.all strconv.isDigit = false) := by
        simp [hne, hall]
      rw [if_neg hall']
      cases neg
      · by_cases hr : (digitsValue digits : ℤ) ≥ 2 ^ (64 - 1)
        · simp only [hr, and_self, if_true, Prod.mk.injEq]
          constructor
          · intro h
            exact absurd h.2 (by simp [strconv.ErrRange])
          · rintro ⟨_, _, hv, _, hhi⟩
            simp at hv
            omega
        · simp only [hr, and_false, if_false, Bool.false_eq_true, false_and, Prod.mk.injEq,
            and_true]
          constructor
          · intro h
            refine ⟨hne, hall, h.symm, ?_⟩
            omega
          · rintro ⟨_, _, hv, _⟩
            exact hv.symm
      · by_cases hr : (digitsValue digits : ℤ) > 2 ^ (64 - 1)
        · simp only [hr, Bool.true_eq_false, false_and, if_false, and_self, if_true,
            Prod.mk.injEq]
          constructor
          · intro h
            exact absurd h.2 (by simp [strconv.ErrRange])
          · rintro ⟨_, _, hv, hlo, _⟩
            omega
        · simp only [hr, Bool.true_eq_false, false_and, if_false, and_false, if_true,
            Prod.mk.injEq, and_true]
          constructor
          · intro h
            refine ⟨hne, hall, h.symm, ?_⟩
            omega
          · rintro ⟨_, _, hv, _⟩
            exact hv.symm
    · have hall' : digits.all strconv.isDigit = false := by simpa using hall
      simp [hall', strconv.ErrSyntax]

theorem ParseInt_ok_iff (s : string) (v : ℤ) :
    strconv.ParseInt s 0 = (v, none) ↔ IsDecimalText s v ∧ IsInt64 v := by
  unfold strconv.ParseInt
  cases hs : s.data with
  | nil =>
    simp only [strconv.ErrSyntax, Prod.mk.injEq, reduceCtorEq, and_false, false_iff, not_and]
    rintro ⟨sign, digits, hd, -, hne, -⟩
    rw [hs] at hd
    have := List.append_eq_nil.1 hd.symm
    exact absurd this.2 hne
  | cons c rest =>
    simp only
    by_cases hplus : c = '+'
    · subst hplus
      rw [if_pos rfl, parseMagnitude_ok_iff]
      constructor
      · rintro ⟨hne, hall, hv, hr⟩
        exact ⟨⟨['+'], rest, by simp [hs], by simp, hne, hall, by simpa using hv⟩, hr⟩
      · rintro ⟨⟨sign, digits, hd, hsign, hne, hall, hv⟩, hr⟩
        rw [hs] at hd
        rcases hsign with rfl | rfl | rfl
        · cases digits with
          | nil => exact absurd rfl hne
          | cons d ds =>
            simp only [List.nil_append, List.cons.injEq] at hd
            have := (isDigit_ne_sign d (by simp at hall; exact hall.1)).1
            exact absurd hd.1.symm this
        · simp only [List.singleton_append, List.cons.injEq, true_and] at hd
          subst hd
          exact ⟨hne, hall, by simpa using hv, hr⟩
        · simp at hd
    · by_cases hminus : c = '-'
      · subst hminus
        rw [if_neg hplus, if_pos rfl, parseMagnitude_ok_iff]
        constructor
        · rintro ⟨hne, hall, hv, hr⟩
          exact ⟨⟨['-'], rest, by simp [hs], by simp, hne, hall, by simpa using hv⟩, hr⟩
        · rintro ⟨⟨sign, digits, hd, hsign, hne, hall, hv⟩, hr⟩
          rw [hs] at hd
          rcases hsign with rfl | rfl | rfl
          · cases digits with
            | nil => exact absurd rfl hne
            | cons d ds =>
              simp only [List.nil_append, List.cons.injEq] at hd
              have := (isDigit_ne_sign d (by simp at hall; exact hall.1)).2
              exact absurd hd.1.symm this
          · simp at hd
          · simp only [List.singleton_append, List.cons.injEq, true_and] at hd
            subst hd
            exact ⟨hne, hall, by simpa using hv, hr⟩
      · rw [if_neg hplus, if_neg hminus, parseMagnitude_ok_iff]
        constructor
        · rintro ⟨hne, hall, hv, hr⟩
          exact ⟨⟨[], c :: rest, by simp [hs], by simp, hne, hall, by simpa using hv⟩, hr⟩
        · rintro ⟨⟨sign, digits, hd, hsign, hne, hall, hv⟩, hr⟩
          rw [hs] at hd
          rcases hsign with rfl | rfl | rfl
          · simp only [List.nil_append] at hd
            subst hd
            exact ⟨hne, hall, by simpa using hv, hr⟩
          · simp only [List.singleton_append, List.cons.injEq] at hd
            exact absurd hd.1 hplus
          · simp only [List.singleton_append, List.cons.injEq] at hd
            exact absurd hd.1 hminus

theorem IsDecimalText_Itoa (v : ℤ) : IsDecimalText (Itoa v) v := by
  have hval := digitsValue_formatBits (v.natAbs + 1) v.natAbs (Nat.lt_succ_self _)
  have hall := formatBits_all_isDigit (v.natAbs + 1) v.natAbs
  obtain ⟨d, cs, hd, hcs⟩ := formatBits_head v.natAbs v.natAbs
  have hne : formatBits (v.natAbs + 1) v.natAbs [] ≠ [] := by rw [hcs]; simp
  unfold Itoa
  split
  · rename_i hneg
    refine ⟨['-'], formatBits (v.natAbs + 1) v.natAbs [], rfl, by simp, hne, hall, ?_⟩
    rw [if_pos rfl, hval]
    omega
  · rename_i hpos
    refine ⟨[], formatBits (v.natAbs + 1) v.natAbs [], rfl, by simp, hne, hall, ?_⟩
    rw [if_neg (by simp), hval]
    omega

theorem ParseInt_Itoa (v : ℤ) (h : IsInt64 v) : strconv.ParseInt (Itoa v) 0 = (v, none) :=
  (ParseInt_ok_iff (Itoa v) v).2 ⟨IsDecimalText_Itoa v, h⟩

theorem ParseInt_error_iff (s : string) :
    (strconv.ParseInt s 0).2 ≠ none ↔ ¬ ∃ v, IsDecimalText s v ∧ IsInt64 v := by
  constructor
  · rintro h ⟨v, hv⟩
    rw [(ParseInt_ok_iff s v).2 hv] at h
    exact h rfl
  · intro h hnone
    apply h
    refine ⟨(strconv.ParseInt s 0).1, (ParseInt_ok_iff s _).1 ?_⟩
    rw [← hnone]

/-- C15: the scalar encodings round-trip. For `Int64Encoding` and every int64
`v`, and for `IntEncoding` and every int `v` (same range on the 64-bit
platform): `Marshal` returns no error and the same bytes for `v` passed by
value and by reference, the bytes are the decimal text of `v` (the text
`strconv.Itoa` gives, which reads back as `v`), and `Unmarshal` of them into a
slot of the matching pointer type returns no error and leaves `v` in the
slot. For `StringEncoding` and every string `v` the bytes are `v` itself. -/
theorem scalar_encoding_round_trip :
    (∀ v, IsInt64 v →
      Int64Encoding.Marshal (.int64 v) = .returns (some (Itoa v), none) ∧
      Int64Encoding.Marshal (.int64Ptr (some v)) = .returns (some (Itoa v), none) ∧
      Atoi (Itoa v) = v ∧
      ∀ old, Int64Encoding.Unmarshal (some (Itoa v)) (.int64Ptr (some old)) =
        .returns (none, .int64Ptr (some v))) ∧
    (∀ v, IsInt64 v →
      IntEncoding.Marshal (.int v) = .returns (some (Itoa v), none) ∧
      IntEncoding.Marshal (.intPtr (some v)) = .returns (some (Itoa v), none) ∧
      Atoi (Itoa v) = v ∧
      ∀ old, IntEncoding.Unmarshal (some (Itoa v)) (.intPtr (some old)) =
        .returns (none, .intPtr (some v))) ∧
    (∀ v : string,
      StringEncoding.Marshal (.string v) = .returns (some v, none) ∧
      StringEncoding.Marshal (.stringPtr (some v)) = .returns (some v, none) ∧
      ∀ old, StringEncoding.Unmarshal (some v) (.stringPtr (some old)) =
        .returns (none, .stringPtr (some v))) := by
  refine ⟨?_, ?_, ?_⟩
  · intro v hv
    refine ⟨rfl, rfl, Atoi_Itoa v, ?_⟩
    intro old
    simp [Int64Encoding, Bytes.toString, ParseInt_Itoa v hv]
  · intro v hv
    refine ⟨rfl, rfl, Atoi_Itoa v, ?_⟩
    intro old
    simp [IntEncoding, Bytes.toString, strconv.Atoi, ParseInt_Itoa v hv]
  · intro v
    refine ⟨rfl, rfl, ?_⟩
    intro old
    simp [StringEncoding, Bytes.toString]

/-- C15 at the value -42, whose decimal text is `-42`, for both integer
encodings. -/
theorem scalar_encoding_round_trip_witness :
    (Int64Encoding.Marshal (.int64 (-42)) = .returns (some (Itoa (-42)), none) ∧
      Int64Encoding.Marshal (.int64Ptr (some (-42))) = .returns (some (Itoa (-42)), none) ∧
      Atoi (Itoa (-42)) = -42 ∧
      ∀ old, Int64Encoding.Unmarshal (some (Itoa (-42))) (.int64Ptr (some old)) =
        .returns (none, .int64Ptr (some (-42)))) ∧
    (IntEncoding.Marshal (.int (-42)) = .returns (some (Itoa (-42)), none) ∧
      IntEncoding.Marshal (.intPtr (some (-42))) = .returns (some (Itoa (-42)), none) ∧
      Atoi (Itoa (-42)) = -42 ∧
      ∀ old, IntEncoding.Unmarshal (some (Itoa (-42))) (.intPtr (some old)) =
        .returns (none, .intPtr (some (-42)))) ∧
    Itoa (-42) = "-42" :=
  ⟨scalar_encoding_round_trip.1 (-42) ⟨by decide, by decide⟩,
    scalar_encoding_round_trip.2.1 (-42) ⟨by decide, by decide⟩, by decide⟩

/-- C16, as stated, fails: the payload `5` is the decimal text of an integer
and the target slot is not of the encoding's own type (`Int64Encoding` into an
`*int` slot, `IntEncoding` into an `*int64` slot); the call does not return an
error, it panics on the type assertion. -/
theorem numeric_Unmarshal_wrong_slot_panics :
    Int64Encoding.Unmarshal (some "5") (.intPtr (some 0)) =
      .panics "interface conversion: interface {} is not *int64" ∧
    IntEncoding.Unmarshal (some "5") (.int64Ptr (some 0)) =
      .panics "interface conversion: interface {} is not *int" := by
  decide

/-- C16, amended: for `Int64Encoding.Unmarshal` and `IntEncoding.Unmarshal`,
whenever the payload is not a decimal numeral of an integer in the 64-bit
range, the call returns a non-nil error, does not panic and leaves the target
unchanged, whatever the type of the target slot. When the payload is such a
numeral and the target slot is not a pointer of the encoding's own type, the
call panics on the type assertion. -/
theorem numeric_Unmarshal_rejects :
    (∀ data value, (¬ ∃ v, IsDecimalText (Bytes.toString data) v ∧ IsInt64 v) →
      (∃ err, Int64Encoding.Unmarshal data value = .returns (some err, value)) ∧
      (∃ err, IntEncoding.Unmarshal data value = .returns (some err, value))) ∧
    (∀ data value, (∃ v, IsDecimalText (Bytes.toString data) v ∧ IsInt64 v) →
      ((∀ target, value ≠ .int64Ptr target) →
        ∃ msg, Int64Encoding.Unmarshal data value = .panics msg) ∧
      ((∀ target, value ≠ .intPtr target) →
        ∃ msg, IntEncoding.Unmarshal data value = .panics msg)) := by
  refine ⟨?_, ?_⟩
  · intro data value hbad
    have herr := (ParseInt_error_iff (Bytes.toString data)).2 hbad
    rcases hp : strconv.ParseInt (Bytes.toString data) 0 with ⟨i, e?⟩
    rw [hp] at herr
    cases e? with
    | none => exact absurd rfl herr
    | some err =>
      exact ⟨⟨err, by simp [Int64Encoding, hp]⟩, ⟨err, by simp [IntEncoding, strconv.Atoi, hp]⟩⟩
  · rintro data value ⟨v, hv⟩
    have hp := (ParseInt_ok_iff (Bytes.toString data) v).2 hv
    refine ⟨?_, ?_⟩
    · intro hslot
      cases value with
      | int64Ptr target => exact absurd rfl (hslot target)
      | _ =>
        exact ⟨"interface conversion: interface {} is not *int64", by simp [Int64Encoding, hp]⟩
    · intro hslot
      cases value with
      | intPtr target => exact absurd rfl (hslot target)
      | _ =>
        exact ⟨"interface conversion: interface {} is not *int",
          by simp [IntEncoding, strconv.Atoi, hp]⟩

/-- The amended C16 at the payloads `12x` (not a numeral) and `5` (a numeral
read into a slot of the other integer type). -/
theorem numeric_Unmarshal_rejects_witness :
    ((∃ err, Int64Encoding.Unmarshal (some "12x") (.int64Ptr (some 7)) =
        .returns (some err, .int64Ptr (some 7))) ∧
      (∃ err, IntEncoding.Unmarshal (some "12x") (.int64Ptr (some 7)) =
        .returns (some err, .int64Ptr (some 7)))) ∧
    (∃ msg, Int64Encoding.Unmarshal (some "5") (.intPtr (some 0)) = .panics msg) :=
  ⟨numeric_Unmarshal_rejects.1 (some "12x") (.int64Ptr (some 7))
      ((ParseInt_error_iff "12x").1 (by decide)),
    (numeric_Unmarshal_rejects.2 (some "5") (.intPtr (some 0))
      ⟨5, (ParseInt_ok_iff "5" 5).1 (by decide)⟩).1 (fun target => by simp)⟩

/-! ## The generic entry points Marshal and Unmarshal (encoding.go) -/

theorem Marshal_of_strategy_ok {O : Type} [BinaryMarshaling O]
    (e : Encoding O) (v : O) (buf : Bytes) (h : e.Marshal v = .returns (buf, none)) :
    Marshal (some e) v = .returns (buf, none) := by
  cases hc : BinaryMarshaling.MarshalBinary v <;> simp [Marshal, h]

theorem Unmarshal_of_strategy_ok {O : Type} [BinaryMarshaling O]
    (e : Encoding O) (data : Bytes) (v v₁ : O) (h : e.Unmarshal data v = .returns (none, v₁)) :
    Unmarshal (some e) data v = .returns (none, v₁) := by
  cases hc : BinaryMarshaling.UnmarshalBinary v <;> simp [Unmarshal, h]

/-- C14: the two-level fallback of `Marshal(e, v)` and `Unmarshal(e, data, v)`.
With no strategy configured and a value that has the native capability, the
capability's result is returned. With a strategy configured that succeeds,
the strategy's result is returned, whether or not the value has the
capability. With a strategy configured that fails, the capability's result
(data and error) is returned when the value has the capability, and the
strategy's error otherwise. -/
theorem Marshal_Unmarshal_fallback {O : Type} [BinaryMarshaling O] (v : O) (data : Bytes) :
    (∀ r, BinaryMarshaling.MarshalBinary v = some r → Marshal none v = .returns r) ∧
    (∀ e buf, e.Marshal v = .returns (buf, none) → Marshal (some e) v = .returns (buf, none)) ∧
    (∀ e buf err r, e.Marshal v = .returns (buf, some err) →
      BinaryMarshaling.MarshalBinary v = some r → Marshal (some e) v = .returns r) ∧
    (∀ e buf err, e.Marshal v = .returns (buf, some err) →
      BinaryMarshaling.MarshalBinary v = none → Marshal (some e) v = .returns (buf, some err)) ∧
    (∀ bm, BinaryMarshaling.UnmarshalBinary v = some bm →
      Unmarshal none data v = .returns (bm data)) ∧
    (∀ e v₁, e.Unmarshal data v = .returns (none, v₁) →
      Unmarshal (some e) data v = .returns (none, v₁)) ∧
    (∀ e err v₁ bm, e.Unmarshal data v = .returns (some err, v₁) →
      BinaryMarshaling.UnmarshalBinary v₁ = some bm →
      Unmarshal (some e) data v = .returns (bm data)) ∧
    (∀ e err v₁, e.Unmarshal data v = .returns (some err, v₁) →
      BinaryMarshaling.UnmarshalBinary v₁ = none →
      Unmarshal (some e) data v = .returns (some err, v₁)) := by
  refine ⟨?_, ?_, ?_, ?_, ?_, ?_, ?_, ?_⟩
  · intro r h
    simp [Marshal, h]
  · intro e buf h
    cases hc : BinaryMarshaling.MarshalBinary v <;> simp [Marshal, h]
  · intro e buf err r h hc
    simp [Marshal, h, hc]
  · intro e buf err h hc
    simp [Marshal, h, hc]
  · intro bm h
    simp [Unmarshal, h]
  · intro e v₁ h
    cases hc : BinaryMarshaling.UnmarshalBinary v <;> simp [Unmarshal, h]
  · intro e err v₁ bm h hc
    cases hc0 : BinaryMarshaling.UnmarshalBinary v <;> simp [Unmarshal, h, hc]
  · intro e err v₁ h hc
    cases hc0 : BinaryMarshaling.UnmarshalBinary v <;> simp [Unmarshal, h, hc]

/-- C14 on a value with the capability (`Blob`) under no strategy, a working
strategy and a failing strategy, and on a value without the capability (a
string) under a working and under a failing strategy. -/
theorem Marshal_Unmarshal_fallback_witness :
    Marshal none (Blob.mk "abc") = .returns (some "abc", none) ∧
    Marshal (some BracketEncoding) (Blob.mk "abc") = .returns (some "[abc]", none) ∧
    Marshal (some FailingEncoding) (Blob.mk "abc") = .returns (some "abc", none) ∧
    Marshal (some StrictStringEncoding) (Value.other "struct") =
      .returns (none, some (.Driver "" "unsupported type")) ∧
    Unmarshal none (some "abc") (Blob.mk "") = .returns (none, Blob.mk "abc") ∧
    Unmarshal (some BracketEncoding) (some "[abc]") (Blob.mk "") =
      .returns (none, Blob.mk "abc") ∧
    Unmarshal (some FailingEncoding) (some "abc") (Blob.mk "") =
      .returns (none, Blob.mk "abc") ∧
    Unmarshal (some Int64Encoding) (some "12x") (Value.int64Ptr (some 7)) =
      .returns (some strconv.ErrSyntax, Value.int64Ptr (some 7)) :=
  ⟨(Marshal_Unmarshal_fallback (Blob.mk "abc") none).1 (some "abc", none) rfl,
    (Marshal_Unmarshal_fallback (Blob.mk "abc") none).2.1 BracketEncoding (some "[abc]")
      (by decide),
    (Marshal_Unmarshal_fallback (Blob.mk "abc") none).2.2.1 FailingEncoding none
      (.Driver "" "cannot encode") (some "abc", none) rfl rfl,
    (Marshal_Unmarshal_fallback (Value.other "struct") none).2.2.2.1 StrictStringEncoding none
      (.Driver "" "unsupported type") rfl rfl,
    (Marshal_Unmarshal_fallback (Blob.mk "") (some "abc")).2.2.2.2.1
      (fun data => (none, ⟨Bytes.toString data⟩)) rfl,
    (Marshal_Unmarshal_fallback (Blob.mk "") (some "[abc]")).2.2.2.2.2.1 BracketEncoding
      (Blob.mk "abc") (by decide),
    (Marshal_Unmarshal_fallback (Blob.mk "") (some "abc")).2.2.2.2.2.2.1 FailingEncoding
      (.Driver "" "cannot decode") (Blob.mk "")
      (fun data => (none, ⟨Bytes.toString data⟩)) rfl rfl,
    (Marshal_Unmarshal_fallback (Value.int64Ptr (some 7)) (some "12x")).2.2.2.2.2.2.2
      Int64Encoding strconv.ErrSyntax (Value.int64Ptr (some 7)) (by decide) rfl⟩

/-! ## Storage proxy: nil objects and counters -/

/-- C20: `StorageProxy.Add` and `StorageProxy.Set` called with a nil object
return the nil error and leave everything as it was: neither tier is called
(the log of calls is unchanged) and the state of both tiers is unchanged. -/
theorem StorageProxy_nil_object_noop {σp σb O : Type} [Object O]
    (this : StorageProxy σp σb O) (w : World σp σb O) (key : Option Key) :
    this.Add w key none = (none, w) ∧ this.Set w key none = (none, w) :=
  ⟨rfl, rfl⟩

/-- A type that implements `Storage` does not implement `CounterStorage`: its
one method `Get` has the signature that `Storage` asks for, which is not the
one `CounterStorage` asks for. -/
theorem Implements_Storage_not_CounterStorage (methods : List (string × Signature))
    (h : Implements methods StorageInterface = true) :
    Implements methods CounterStorageInterface = false := by
  have hget : methodOf methods "Get" =
      some ⟨["*context.Context", "Key", "interface{}"], ["error"]⟩ := by
    simp only [Implements, StorageInterface, List.all_cons, Bool.and_eq_true,
      decide_eq_true_eq] at h
    exact h.1
  simp [Implements, CounterStorageInterface, hget]

/-- Whenever the value in `PreferedStorage` implements `Storage`, as every value
that the field can hold does, `Incr` and `Decr` panic on the first type
assertion, before any tier is called. -/
theorem StorageProxy_Incr_Decr_panic {σp σb O : Type} (this : StorageProxy σp σb O)
    (w : World σp σb O) (key : Option Key) (step : ℤ)
    (h : Implements this.PreferedStorage.dynamicType.methods StorageInterface = true) :
    this.Incr w key step = (.panics "interface conversion: not storage.CounterStorage", w) ∧
    this.Decr w key step = (.panics "interface conversion: not storage.CounterStorage", w) := by
  have hno := Implements_Storage_not_CounterStorage _ h
  simp [StorageProxy.Incr, StorageProxy.Decr, DynamicType.assertCounterStorage, hno]

/-- C18: on a proxy over two in-memory tiers, and on a proxy over two tiers
that also have methods named `Incr` and `Decr`, `Incr(Int(7), 1)` and
`Decr(Int(7), 1)` panic on the assertion of the preferred tier to
`CounterStorage`: no tier is called and no (value, error) pair is returned,
where the claim asks for the delegation to the preferred and then to the
backup tier. -/
theorem StorageProxy_Incr_Decr_never_delegate :
    healthyProxy.Incr emptyWorld (some (.Int 7)) 1 =
      (.panics "interface conversion: not storage.CounterStorage", emptyWorld) ∧
    healthyProxy.Decr emptyWorld (some (.Int 7)) 1 =
      (.panics "interface conversion: not storage.CounterStorage", emptyWorld) ∧
    Implements countingProxy.PreferedStorage.dynamicType.methods StorageInterface = true ∧
    countingProxy.Incr emptyWorld (some (.Int 7)) 1 =
      (.panics "interface conversion: not storage.CounterStorage", emptyWorld) ∧
    countingProxy.Decr emptyWorld (some (.Int 7)) 1 =
      (.panics "interface conversion: not storage.CounterStorage", emptyWorld) := by
  decide

/-! ## Cache keys of the tiers (redis_storage.go, counter_storage.go) -/

theorem Replace_not_mem (s : string) (old new : Char) (h : new ≠ old) :
    old ∉ (Replace s old new).data := by
  simp only [Replace, List.mem_map, not_exists, not_and]
  intro c _
  by_cases hc : c = old
  · simp [hc, h]
  · simp [hc]

/-- The counter tier addresses the driver under the prefix as it was given:
`Incr` of a valid key calls the driver's `Incr` at `prefix ++ "_" ++ key.String()`,
and then `Expire` at the same key when an expiry is configured. -/
theorem CounterRedisStorage_Incr_address {δ : Type} (c : RedisClient δ) (p b : string)
    (ttl : Duration) (d : δ) (log : List RedisCall) (k : Key) (step : ℤ)
    (hk : k.toString ≠ "") :
    ((NewCounterRedisStorage (Recording c) p b ttl).Incr (d, log) (some k) step).2.2.2 =
      log ++ [.Incr (p ++ "_" ++ k.toString) step] ++
        (if ttl > 0 then [.Expire (p ++ "_" ++ k.toString) ttl] else []) := by
  simp only [CounterRedisStorage.Incr, NewCounterRedisStorage, BuildCacheKey_valid _ k hk]
  by_cases httl : ttl > 0
  · simp [httl, Recording]
  · simp [httl, Recording]

/-- C19: the counter tier built with the prefix `user_cnt` calls the driver at
`user_cnt_5` for the key `Int(5)`. The redis tier built with the same prefix
keeps `user~cnt` and calls the driver at `user~cnt_5`, which is
`replace(p, "_", "~") ++ "_" ++ k.String()`, the key that the claim asks of the
counter tier too. -/
theorem CounterRedisStorage_prefix_not_normalized :
    userCounterTier.KeyPrefix = "user_cnt" ∧
    userCounterTier.Incr ([], []) (some (.Int 5)) 1 =
      (1, none, ([("user_cnt_5", "1")], [.Incr "user_cnt_5" 1])) ∧
    userRedisTier.KeyPrefix = "user~cnt" ∧
    (userRedisTier.Get ([], []) (some (.Int 5)) (.int64Ptr (some 0))).2.2 =
      [.Get "user~cnt_5"] ∧
    Replace "user_cnt" '_' '~' ++ "_" ++ (Key.Int 5).toString = "user~cnt_5" := by
  decide

/-- C11: the tier built by `NewRedisStorage` from the prefix `p` keeps as
`KeyPrefix` the string `p` with every `_` replaced by `~`, which contains no
`_`; for a valid key `k`, `Get` makes one driver call, `Get` at
`KeyPrefix ++ "_" ++ k.String()`, and `Set` makes one driver call, `Set` at the
same cache key with the marshalled payload and the configured expiry (and no
driver call at all when the value does not marshal). -/
theorem RedisStorage_cache_key {δ O : Type} [BinaryMarshaling O] (c : RedisClient δ)
    (p : string) (ttl : Duration) (enc : Option (Encoding O)) (newObject : Unit → O)
    (bench : Bool) (this : RedisStorage (δ × List RedisCall) O)
    (hthis : this = NewRedisStorage (Recording c) p ttl enc newObject bench)
    (d : δ) (log : List RedisCall) (k : Key) (hk : k.toString ≠ "") (value object : O) :
    this.KeyPrefix = Replace p '_' '~' ∧
    '_' ∉ this.KeyPrefix.data ∧
    (this.Get (d, log) (some k) value).2.2 =
      log ++ [.Get (this.KeyPrefix ++ "_" ++ k.toString)] ∧
    (∀ buf, Marshal enc object = .returns (buf, none) →
      (this.Set (d, log) (some k) object).2.2 =
        log ++ [.Set (this.KeyPrefix ++ "_" ++ k.toString) buf ttl]) ∧
    ((∀ buf, Marshal enc object ≠ .returns (buf, none)) →
      (this.Set (d, log) (some k) object).2.2 = log) := by
  have hkp : this.KeyPrefix = Replace p '_' '~' := by
    subst hthis
    cases bench <;> rfl
  have hclient : this.client = Recording c := by
    subst hthis
    cases bench <;> rfl
  have henc : this.encoding = enc := by
    subst hthis
    cases bench <;> rfl
  have httl : this.DefaultExpireTime = ttl := by
    subst hthis
    cases bench <;> rfl
  refine ⟨hkp, ?_, ?_, ?_, ?_⟩
  · rw [hkp]
    exact Replace_not_mem p '_' '~' (by decide)
  · simp only [RedisStorage.Get, BuildCacheKey_valid _ k hk, hclient]
    rcases hg : c.Get d (this.KeyPrefix ++ "_" ++ k.toString) with ⟨data, err, d₁⟩
    simp only [Recording, hg]
    cases hf : fatalGetError err with
    | some e => rfl
    | none =>
      simp only
      split
      · rfl
      · cases hu : Unmarshal this.encoding data value with
        | panics msg => rfl
        | returns r =>
          obtain ⟨e?, v₁⟩ := r
          cases e? <;> rfl
  · intro buf hm
    simp only [RedisStorage.Set, henc, hm, BuildCacheKey_valid _ k hk, hclient, httl]
    rcases hs : c.Set d (this.KeyPrefix ++ "_" ++ k.toString) buf ttl with ⟨e?, d₁⟩
    simp only [Recording, hs]
    cases e? <;> rfl
  · intro hm
    simp only [RedisStorage.Set, henc]
    cases hmar : Marshal enc object with
    | panics msg => rfl
    | returns r =>
      obtain ⟨buf, e?⟩ := r
      cases e? with
      | none => exact absurd hmar (hm buf)
      | some e => rfl

/-- C11 on the string tier built with the prefix `user_profile`, for the key
`Int(5)`: the prefix kept is `user~profile` and both `Get` and `Set` call the
driver at `user~profile_5`. -/
theorem RedisStorage_cache_key_witness :
    stringTier.KeyPrefix = "user~profile" ∧
    (stringTier.Get ([], []) (some (.Int 5)) (.stringPtr (some ""))).2.2 =
      [.Get "user~profile_5"] ∧
    (stringTier.Set ([], []) (some (.Int 5)) (.string "ann")).2.2 =
      [.Set "user~profile_5" (some "ann") 0] :=
  have h := RedisStorage_cache_key MemRedis "user_profile" 0 (some StringEncoding)
    (fun _ => .stringPtr (some "")) false stringTier rfl [] [] (.Int 5) (by decide)
    (.stringPtr (some "")) (.string "ann")
  ⟨h.1, h.2.2.1, h.2.2.2.1 (some "ann") (by decide)⟩

/-! ## The redis tier and the counter tier: Get, Set, MultiSet -/

/-- Whenever the driver returns a payload that is not nil, the empty payload
included, and no error other than `redis: nil`, `RedisStorage.Get` hands the
payload to `Unmarshal` and returns what `Unmarshal` gives. -/
theorem RedisStorage_Get_unmarshals {δ O : Type} [BinaryMarshaling O]
    (this : RedisStorage δ O) (d d₁ : δ) (k : Key) (hk : k.toString ≠ "") (value : O)
    (payload : string) (err : Option Error)
    (hget : this.client.Get d (this.KeyPrefix ++ "_" ++ k.toString) = (some payload, err, d₁))
    (herr : fatalGetError err = none) :
    this.Get d (some k) value =
      (match Unmarshal this.encoding (some payload) value with
        | .panics msg => .panics msg
        | .returns (some e, v) => .returns (some (.Wrap e "unmarshal json error"), v)
        | .returns (none, v) => .returns (none, v), d₁) := by
  simp only [RedisStorage.Get, BuildCacheKey_valid _ k hk, hget, herr]
  cases hu : Unmarshal this.encoding (some payload) value with
  | panics msg => simp
  | returns r =>
    obtain ⟨e?, v⟩ := r
    cases e? <;> simp

/-- C12: the driver holds the empty payload under the cache key `n_a` (it got
there by `Set` of a value that `Int64Encoding` does not handle, which marshals
to no bytes). `RedisStorage.Get` of the key hands the empty payload to
`Unmarshal` and returns the decode error wrapped, where the claim asks for
`EmptyObjectError`; `CounterRedisStorage.Get` on the same driver state reports
`EmptyObjectError`. -/
theorem RedisStorage_Get_empty_payload :
    int64Tier.Set [] (some (.String "a")) (.string "hello") = (.returns none, [("n_a", "")]) ∧
    MemRedis.Get [("n_a", "")] "n_a" = (some "", none, [("n_a", "")]) ∧
    int64Tier.Get [("n_a", "")] (some (.String "a")) (.int64Ptr (some 7)) =
      (.returns (some (.Wrap strconv.ErrSyntax "unmarshal json error"), .int64Ptr (some 7)),
        [("n_a", "")]) ∧
    (NewCounterRedisStorage MemRedis "n" "n" 0).Get [("n_a", "")] (some (.String "a")) =
      (.returns (0, some (.EmptyObjectError "a")), [("n_a", "")]) := by
  decide

theorem MemRedis_ReturnsLastSet : ReturnsLastSet MemRedis := by
  intro d key payload ttl
  simp [MemRedis, List.lookup]

/-- C13: over a driver that returns what was last set, for every valid key `k`:
`CounterRedisStorage.Set(k, v)` returns no error and a following
`CounterRedisStorage.Get(k)` returns `v` and no error, for every int64 `v`; and
for a `RedisStorage` whose encoding marshals `v` to a payload that it
unmarshals back to `v`, `Set(k, v)` returns no error and a following `Get(k)`
fills the target with `v` and returns no error. -/
theorem Get_after_Set :
    (∀ (δ : Type) (c : RedisClient δ) (p b : string) (ttl : Duration) (d : δ) (k : Key)
        (v : ℤ), ReturnsLastSet c → k.toString ≠ "" → IsInt64 v →
      ((NewCounterRedisStorage c p b ttl).Set d (some k) v).1 = .returns none ∧
      ((NewCounterRedisStorage c p b ttl).Get
        ((NewCounterRedisStorage c p b ttl).Set d (some k) v).2 (some k)).1 =
          .returns (v, none)) ∧
    (∀ (δ O : Type) [BinaryMarshaling O] (this : RedisStorage δ O) (e : Encoding O) (d : δ)
        (k : Key) (v target : O) (payload : string),
      this.encoding = some e → ReturnsLastSet this.client → k.toString ≠ "" →
      e.Marshal v = .returns (some payload, none) →
      e.Unmarshal (some payload) target = .returns (none, v) →
      (this.Set d (some k) v).1 = .returns none ∧
      (this.Get (this.Set d (some k) v).2 (some k) target).1 = .returns (none, v)) := by
  refine ⟨?_, ?_⟩
  · intro δ c p b ttl d k v hdrv hk hv
    obtain ⟨hs, hg, hge⟩ := hdrv d (p ++ "_" ++ k.toString) (Itoa v) ttl
    rcases hset : c.Set d (p ++ "_" ++ k.toString) (some (Itoa v)) ttl with ⟨es, d₁⟩
    rw [hset] at hs hg hge
    simp only at hs hg hge
    subst hs
    rcases hget : c.Get d₁ (p ++ "_" ++ k.toString) with ⟨data, eg, d₂⟩
    rw [hget] at hg hge
    simp only at hg hge
    subst hg hge
    have hlen : ¬ (Itoa v).length = 0 := by
      intro h0
      exact Itoa_ne_empty v (String.ext (List.length_eq_zero.1 h0))
    have hset' : (NewCounterRedisStorage c p b ttl).Set d (some k) v = (.returns none, d₁) := by
      simp [CounterRedisStorage.Set, NewCounterRedisStorage, BuildCacheKey_valid _ k hk,
        Int64Encoding, marshalInteger, strconv.AppendInt, hset]
    rw [hset']
    refine ⟨rfl, ?_⟩
    simp [CounterRedisStorage.Get, NewCounterRedisStorage, BuildCacheKey_valid _ k hk, hget,
      fatalGetError, Bytes.toString, hlen, Int64Encoding, ParseInt_Itoa v hv]
  · intro δ O _ this e d k v target payload henc hdrv hk hm hu
    obtain ⟨hs, hg, hge⟩ := hdrv d (this.KeyPrefix ++ "_" ++ k.toString) payload
      this.DefaultExpireTime
    rcases hset : this.client.Set d (this.KeyPrefix ++ "_" ++ k.toString) (some payload)
      this.DefaultExpireTime with ⟨es, d₁⟩
    rw [hset] at hs hg hge
    simp only at hs hg hge
    subst hs
    rcases hget : this.client.Get d₁ (this.KeyPrefix ++ "_" ++ k.toString) with ⟨data, eg, d₂⟩
    rw [hget] at hg hge
    simp only at hg hge
    subst hg hge
    have hmar : Marshal this.encoding v = .returns (some payload, none) := by
      rw [henc]
      exact (Marshal_of_strategy_ok e v (some payload) hm)
    have hunm : Unmarshal this.encoding (some payload) target = .returns (none, v) := by
      rw [henc]
      exact (Unmarshal_of_strategy_ok e (some payload) target v hu)
    have hset' : this.Set d (some k) v = (.returns none, d₁) := by
      simp [RedisStorage.Set, hmar, BuildCacheKey_valid _ k hk, hset]
    rw [hset']
    refine ⟨rfl, ?_⟩
    rw [RedisStorage_Get_unmarshals this d₁ d₂ k hk target payload none hget rfl, hunm]

/-- C13 on the in-memory redis: the counter 42 under the key `String("a")`, and
the redis tier of integers with the value 42 passed by reference. -/
theorem Get_after_Set_witness :
    (((NewCounterRedisStorage MemRedis "n" "n" 0).Set [] (some (.String "a")) 42).1 =
        .returns none ∧
      ((NewCounterRedisStorage MemRedis "n" "n" 0).Get
        ((NewCounterRedisStorage MemRedis "n" "n" 0).Set [] (some (.String "a")) 42).2
        (some (.String "a"))).1 = .returns (42, none)) ∧
    ((int64Tier.Set [] (some (.String "a")) (.int64Ptr (some 42))).1 = .returns none ∧
      (int64Tier.Get (int64Tier.Set [] (some (.String "a")) (.int64Ptr (some 42))).2
        (some (.String "a")) (.int64Ptr (some 0))).1 =
          .returns (none, .int64Ptr (some 42))) :=
  ⟨Get_after_Set.1 (List (string × string)) MemRedis "n" "n" 0 [] (.String "a") 42
      MemRedis_ReturnsLastSet (by decide) ⟨by decide, by decide⟩,
    Get_after_Set.2 (List (string × string)) Value int64Tier Int64Encoding []
      (.String "a") (.int64Ptr (some 42)) (.int64Ptr (some 0)) "42" rfl
      MemRedis_ReturnsLastSet (by decide) (by decide) (by decide)⟩

theorem multiSetValues_eq_survivingPairs {δ O : Type} [BinaryMarshaling O]
    (this : RedisStorage δ O) (valueMap : List (Option Key × O))
    (h : ∀ entry ∈ valueMap, (Marshal this.encoding entry.2).returned = true) :
    this.multiSetValues valueMap = .returns (survivingPairs this valueMap) := by
  induction valueMap with
  | nil => rfl
  | cons entry rest ih =>
    obtain ⟨key, value⟩ := entry
    have hrest := ih (fun e he => h e (List.mem_cons_of_mem _ he))
    have hhead := h (key, value) (List.mem_cons_self _ _)
    have hcons : survivingPairs this ((key, value) :: rest) =
        (match Marshal this.encoding value, BuildCacheKey this.KeyPrefix key with
          | .returns (buf, none), (cacheKey, none) => [some cacheKey, buf]
          | _, _ => []) ++ survivingPairs this rest := by
      simp [survivingPairs]
    rw [hcons]
    simp only [RedisStorage.multiSetValues, hrest]
    cases hm : Marshal this.encoding value with
    | panics msg => simp [hm, Outcome.returned] at hhead
    | returns r =>
      obtain ⟨buf, e?⟩ := r
      cases e? with
      | some e => simp
      | none =>
        rcases hb : BuildCacheKey this.KeyPrefix key with ⟨cacheKey, eb?⟩
        cases eb? <;> simp

theorem multiSetValues_panics {δ O : Type} [BinaryMarshaling O]
    (this : RedisStorage δ O) (valueMap : List (Option Key × O))
    (h : ∃ entry ∈ valueMap, (Marshal this.encoding entry.2).returned = false) :
    ∃ msg, this.multiSetValues valueMap = .panics msg := by
  induction valueMap with
  | nil => simp at h
  | cons entry rest ih =>
    obtain ⟨key, value⟩ := entry
    simp only [RedisStorage.multiSetValues]
    cases hm : Marshal this.encoding value with
    | panics msg => exact ⟨msg, rfl⟩
    | returns r =>
      have hrest : ∃ entry ∈ rest, (Marshal this.encoding entry.2).returned = false := by
        obtain ⟨e, hin, hp⟩ := h
        rcases List.mem_cons.1 hin with rfl | hin
        · simp [hm, Outcome.returned] at hp
        · exact ⟨e, hin, hp⟩
      obtain ⟨msg, hmsg⟩ := ih hrest
      obtain ⟨buf, e?⟩ := r
      cases e? with
      | some e => exact ⟨msg, hmsg⟩
      | none =>
        rcases hb : BuildCacheKey this.KeyPrefix key with ⟨cacheKey, eb?⟩
        cases eb? with
        | some eb => exact ⟨msg, hmsg⟩
        | none => exact ⟨msg, by simp [hmsg]⟩

/-- C17, as stated, fails: the map has one entry that can be written and one
whose value is a nil `*string`, which `StringEncoding.Marshal` dereferences.
The entry is not skipped: the whole `MultiSet` panics, in either order of the
iteration over the map, no `MSet` reaches the driver and the other entry is not
persisted. -/
theorem RedisStorage_MultiSet_nil_pointer_panics :
    Marshal stringTier.encoding (.string "x") = .returns (some "x", none) ∧
    BuildCacheKey stringTier.KeyPrefix (some (.String "a")) = ("user~profile_a", none) ∧
    stringTier.MultiSet ([], []) nilPointerMap =
      (.panics "invalid memory address or nil pointer dereference", ([], [])) ∧
    stringTier.MultiSet ([], []) nilPointerMap.reverse =
      (.panics "invalid memory address or nil pointer dereference", ([], [])) := by
  decide

/-- C17, amended: `RedisStorage.MultiSet` of a non-empty map none of whose
values makes `Marshal` panic makes one driver call, `MSet` with the configured
expiry and, for each entry whose value marshals and whose key builds, the pair
of `BuildCacheKey(prefix, key)` and `Marshal(value)`; the entries whose value
fails to marshal or whose key fails to build are left out. The call returns
the (wrapped) error of that `MSet` call and no other: the entries left out do
not make it fail, and it succeeds whenever that `MSet` does, also when every
entry was left out. When `Marshal` panics on some value of the map, the call
panics and the driver is not called. -/
theorem RedisStorage_MultiSet_best_effort {δ O : Type} [BinaryMarshaling O]
    (c : RedisClient δ) (this : RedisStorage (δ × List RedisCall) O)
    (hclient : this.client = Recording c) (d : δ) (log : List RedisCall)
    (valueMap : List (Option Key × O)) (hne : valueMap ≠ []) :
    ((∀ entry ∈ valueMap, (Marshal this.encoding entry.2).returned = true) →
      this.MultiSet (d, log) valueMap =
        (.returns ((c.MSet d this.DefaultExpireTime (survivingPairs this valueMap)).1.map
            (fun err => Error.Wrap err "redis set error")),
          ((c.MSet d this.DefaultExpireTime (survivingPairs this valueMap)).2,
            log ++ [.MSet this.DefaultExpireTime (survivingPairs this valueMap)])) ∧
      ((c.MSet d this.DefaultExpireTime (survivingPairs this valueMap)).1 = none →
        (this.MultiSet (d, log) valueMap).1 = .returns none)) ∧
    ((∃ entry ∈ valueMap, (Marshal this.encoding entry.2).returned = false) →
      ∃ msg, this.MultiSet (d, log) valueMap = (.panics msg, (d, log))) := by
  have hlen : ¬ valueMap.length = 0 := fun h => hne (List.length_eq_zero.1 h)
  refine ⟨?_, ?_⟩
  · intro hret
    have heq : this.MultiSet (d, log) valueMap =
        (.returns ((c.MSet d this.DefaultExpireTime (survivingPairs this valueMap)).1.map
            (fun err => Error.Wrap err "redis set error")),
          ((c.MSet d this.DefaultExpireTime (survivingPairs this valueMap)).2,
            log ++ [.MSet this.DefaultExpireTime (survivingPairs this valueMap)])) := by
      simp only [RedisStorage.MultiSet, hlen, if_false,
        multiSetValues_eq_survivingPairs this valueMap hret, hclient]
      rcases hm : c.MSet d this.DefaultExpireTime (survivingPairs this valueMap) with ⟨e?, d₁⟩
      simp only [Recording, hm]
      cases e? <;> rfl
    refine ⟨heq, ?_⟩
    intro hok
    rw [heq, hok]
    rfl
  · intro hpanic
    obtain ⟨msg, hmsg⟩ := multiSetValues_panics this valueMap hpanic
    exact ⟨msg, by simp only [RedisStorage.MultiSet, hlen, if_false, hmsg]⟩

/-- C17 on the strict string tier (prefix `doc`, expiry 60). A map of five
entries, one with a value that does not marshal, one with an empty key and one
with a nil key: the two other entries go to the driver in one `MSet` call and
are stored, and the call returns no error. A map none of whose entries can be
written: the `MSet` call has no pair and the call returns no error. On the
string tier, a map with a nil pointer: the call panics. -/
theorem RedisStorage_MultiSet_best_effort_witness :
    survivingPairs strictTier mixedMap = [some "doc_a", some "x", some "doc_3", some "w"] ∧
    strictTier.MultiSet ([], []) mixedMap =
      (.returns none, ([("doc_3", "w"), ("doc_a", "x")],
        [.MSet 60 [some "doc_a", some "x", some "doc_3", some "w"]])) ∧
    strictTier.MultiSet ([], []) hopelessMap = (.returns none, ([], [.MSet 60 []])) ∧
    (strictTier.MultiSet ([], []) hopelessMap).1 = .returns none ∧
    ∃ msg, stringTier.MultiSet ([], []) nilPointerMap = (.panics msg, ([], [])) :=
  ⟨by decide,
    ((RedisStorage_MultiSet_best_effort MemRedis strictTier rfl [] [] mixedMap (by decide)).1
      (by decide)).1,
    ((RedisStorage_MultiSet_best_effort MemRedis strictTier rfl [] [] hopelessMap (by decide)).1
      (by decide)).1,
    ((RedisStorage_MultiSet_best_effort MemRedis strictTier rfl [] [] hopelessMap (by decide)).1
      (by decide)).2 (by decide),
    (RedisStorage_MultiSet_best_effort MemRedis stringTier rfl [] [] nilPointerMap
      (by decide)).2 (by decide)⟩

/-! ## Storage proxy: the assertion to CounterStorage -/

/-- C24: `Storage` and `CounterStorage` declare `Get` and `Set` with different
signatures, so no method set implements both. Consequently, for every
`StorageProxy` whose `PreferedStorage` holds a value that implements `Storage`
(or holds nil), the assertion of `PreferedStorage` to `CounterStorage` fails,
and `Incr` and `Decr` panic with both tiers and the log of tier calls
unchanged: no counter operation of a tier is invoked. -/
theorem Storage_CounterStorage_disjoint {σp σb O : Type} (this : StorageProxy σp σb O)
    (w : World σp σb O) (key : Option Key) (step : ℤ)
    (h : this.PreferedStorage.dynamicType.methods = [] ∨
      Implements this.PreferedStorage.dynamicType.methods StorageInterface = true) :
    methodOf StorageInterface "Get" ≠ methodOf CounterStorageInterface "Get" ∧
    methodOf StorageInterface "Set" ≠ methodOf CounterStorageInterface "Set" ∧
    (∀ methods, ¬ (Implements methods StorageInterface = true ∧
      Implements methods CounterStorageInterface = true)) ∧
    this.PreferedStorage.dynamicType.assertCounterStorage = none ∧
    this.Incr w key step = (.panics "interface conversion: not storage.CounterStorage", w) ∧
    this.Decr w key step = (.panics "interface conversion: not storage.CounterStorage", w) := by
  have hno : Implements this.PreferedStorage.dynamicType.methods CounterStorageInterface
      = false := by
    rcases h with h | h
    · rw [h]
      decide
    · exact Implements_Storage_not_CounterStorage _ h
  refine ⟨by decide, by decide, ?_, ?_, ?_, ?_⟩
  · rintro methods ⟨h₁, h₂⟩
    rw [Implements_Storage_not_CounterStorage methods h₁] at h₂
    exact absurd h₂ (by simp)
  · simp [DynamicType.assertCounterStorage, hno]
  · simp [StorageProxy.Incr, DynamicType.assertCounterStorage, hno]
  · simp [StorageProxy.Decr, DynamicType.assertCounterStorage, hno]

/-- C24 on the proxy over two in-memory tiers, whose values implement
`Storage`. -/
theorem Storage_CounterStorage_disjoint_witness :
    healthyProxy.PreferedStorage.dynamicType.assertCounterStorage = none ∧
    healthyProxy.Incr emptyWorld (some (.Int 7)) 1 =
      (.panics "interface conversion: not storage.CounterStorage", emptyWorld) ∧
    healthyProxy.Decr emptyWorld (some (.Int 7)) 1 =
      (.panics "interface conversion: not storage.CounterStorage", emptyWorld) :=
  (Storage_CounterStorage_disjoint healthyProxy emptyWorld (some (.Int 7)) 1
    (Or.inr (by decide))).2.2.2

/-! ## Scalar Marshal (encoding.go) -/

/-- C26, as stated, fails: on a nil pointer of a handled pointer type the
scalar `Marshal` functions do not return a nil error, they panic on the
dereference. -/
theorem scalar_Marshal_nil_pointer_panics :
    Int64Encoding.Marshal (.int64Ptr none) =
      .panics "invalid memory address or nil pointer dereference" ∧
    IntEncoding.Marshal (.intPtr none) =
      .panics "invalid memory address or nil pointer dereference" ∧
    StringEncoding.Marshal (.stringPtr none) =
      .panics "invalid memory address or nil pointer dereference" := by
  decide

/-- C26, amended: the scalar `Marshal` functions never report an encode error.
For every input `v` that is not a nil pointer, `Int64Encoding.Marshal`,
`IntEncoding.Marshal` and `StringEncoding.Marshal` return a nil error, and
when the dynamic type of `v` is not one of the handled ones the returned
payload is empty (the nil slice). For every input, a call that returns
returns the nil error. -/
theorem scalar_Marshal_no_error (v : Value) :
    (isNilPointer v = false →
      (∃ data, Int64Encoding.Marshal v = .returns (data, none) ∧
        (handledByIntegerMarshal v = false → data = none)) ∧
      (∃ data, IntEncoding.Marshal v = .returns (data, none) ∧
        (handledByIntegerMarshal v = false → data = none)) ∧
      (∃ data, StringEncoding.Marshal v = .returns (data, none) ∧
        (handledByStringMarshal v = false → data = none))) ∧
    (∀ data err, Int64Encoding.Marshal v = .returns (data, err) → err = none) ∧
    (∀ data err, IntEncoding.Marshal v = .returns (data, err) → err = none) ∧
    (∀ data err, StringEncoding.Marshal v = .returns (data, err) → err = none) := by
  refine ⟨?_, ?_, ?_, ?_⟩
  · intro hnil
    cases v with
    | int64Ptr t => cases t <;> simp_all [isNilPointer, Int64Encoding, IntEncoding,
        StringEncoding, marshalInteger, handledByIntegerMarshal, handledByStringMarshal]
    | intPtr t => cases t <;> simp_all [isNilPointer, Int64Encoding, IntEncoding,
        StringEncoding, marshalInteger, handledByIntegerMarshal, handledByStringMarshal]
    | stringPtr t => cases t <;> simp_all [isNilPointer, Int64Encoding, IntEncoding,
        StringEncoding, marshalInteger, handledByIntegerMarshal, handledByStringMarshal]
    | _ => simp [Int64Encoding, IntEncoding, StringEncoding, marshalInteger,
        handledByIntegerMarshal, handledByStringMarshal]
  · intro data err h
    cases v with
    | int64Ptr t => cases t <;> simp_all [Int64Encoding, marshalInteger]
    | intPtr t => cases t <;> simp_all [Int64Encoding, marshalInteger]
    | _ => simp_all [Int64Encoding, marshalInteger]
  · intro data err h
    cases v with
    | int64Ptr t => cases t <;> simp_all [IntEncoding, marshalInteger]
    | intPtr t => cases t <;> simp_all [IntEncoding, marshalInteger]
    | _ => simp_all [IntEncoding, marshalInteger]
  · intro data err h
    cases v with
    | stringPtr t => cases t <;> simp_all [StringEncoding]
    | _ => simp_all [StringEncoding]

/-- The amended C26 at a value of an unhandled type: all three functions return
the nil slice and the nil error. -/
theorem scalar_Marshal_no_error_witness :
    (∃ data, Int64Encoding.Marshal (.other "struct") = .returns (data, none) ∧
      (handledByIntegerMarshal (.other "struct") = false → data = none)) ∧
    (∃ data, IntEncoding.Marshal (.other "struct") = .returns (data, none) ∧
      (handledByIntegerMarshal (.other "struct") = false → data = none)) ∧
    (∃ data, StringEncoding.Marshal (.other "struct") = .returns (data, none) ∧
      (handledByStringMarshal (.other "struct") = false → data = none)) :=
  (scalar_Marshal_no_error (.other "struct")).1 rfl

/-! ## Storage proxy: the backup read of MultiGet -/

/-- C22: after a preferred read that returns no error and leaves the map `m₁`,
the keys sent to the backup tier are the requested keys that `m₁` does not
hold, in request order. If there is none, the preferred `MultiGet` is the only
tier call; otherwise the next call is the backup `MultiGet` with exactly those
keys, followed at most by the backfill `MultiSet` on the preferred tier. When
the backup read returns a non-empty map `m₂`, the call returns the nil error
and `m₁` merged with `m₂` whatever the backfill `MultiSet` returns: its error
is dropped. -/
theorem StorageProxy_MultiGet_reads_missing {σp σb O : Type} (this : StorageProxy σp σb O)
    (w : World σp σb O) (keys : List Key) (valuesMap m₁ : ValuesMap O) (sp₁ : σp)
    (hpref : this.PreferedStorage.MultiGet w.prefered keys valuesMap = (none, m₁, sp₁)) :
    (∀ k, k ∈ missedKeys keys m₁ ↔ k ∈ keys ∧ MapIndex m₁ k = none) ∧
    List.Sublist (missedKeys keys m₁) keys ∧
    (missedKeys keys m₁ = [] →
      this.MultiGet w keys valuesMap =
        (none, m₁, ⟨sp₁, w.backup, w.calls ++ [.MultiGet .Prefered keys]⟩)) ∧
    (missedKeys keys m₁ ≠ [] →
      ∃ rest, (this.MultiGet w keys valuesMap).2.2.calls =
          w.calls ++ [.MultiGet .Prefered keys, .MultiGet .Backup (missedKeys keys m₁)] ++ rest ∧
        ∀ c ∈ rest, ∃ m, c = .MultiSet .Prefered m) ∧
    (∀ m₂ sb₁, missedKeys keys m₁ ≠ [] → m₂ ≠ [] →
      this.BackupStorage.MultiGet w.backup (missedKeys keys m₁) [] = (none, m₂, sb₁) →
      this.MultiGet w keys valuesMap =
        (none, mergeInto m₁ m₂,
          ⟨(this.PreferedStorage.MultiSet sp₁ m₂).2, sb₁,
            w.calls ++ [.MultiGet .Prefered keys, .MultiGet .Backup (missedKeys keys m₁),
              .MultiSet .Prefered m₂]⟩) ∧
      ∀ e, (this.PreferedStorage.MultiSet sp₁ m₂).1 = some e →
        (this.MultiGet w keys valuesMap).1 = none ∧
        (this.MultiGet w keys valuesMap).2.1 = mergeInto m₁ m₂) := by
  have hmerged : ∀ m₂ sb₁, missedKeys keys m₁ ≠ [] → m₂ ≠ [] →
      this.BackupStorage.MultiGet w.backup (missedKeys keys m₁) [] = (none, m₂, sb₁) →
      this.MultiGet w keys valuesMap =
        (none, mergeInto m₁ m₂,
          ⟨(this.PreferedStorage.MultiSet sp₁ m₂).2, sb₁,
            w.calls ++ [.MultiGet .Prefered keys, .MultiGet .Backup (missedKeys keys m₁),
              .MultiSet .Prefered m₂]⟩) := by
    intro m₂ sb₁ hmiss hm₂ hb
    have hlen : (missedKeys keys m₁).length > 0 := List.length_pos.2 hmiss
    have hz : ¬ m₂.length = 0 := fun h => hm₂ (List.length_eq_zero.1 h)
    simp [StorageProxy.MultiGet, hpref, hlen, hb, hz]
  refine ⟨mem_missedKeys keys m₁, List.filter_sublist _, ?_, ?_, ?_⟩
  · intro hnone
    simp [StorageProxy.MultiGet, hpref, hnone]
  · intro hmiss
    have hlen : (missedKeys keys m₁).length > 0 := List.length_pos.2 hmiss
    rcases hb : this.BackupStorage.MultiGet w.backup (missedKeys keys m₁) [] with ⟨e?, m₂, sb₁⟩
    cases e? with
    | some e =>
      exact ⟨[], by simp [StorageProxy.MultiGet, hpref, hlen, hb], by simp⟩
    | none =>
      by_cases hz : m₂.length = 0
      · exact ⟨[], by simp [StorageProxy.MultiGet, hpref, hlen, hb, hz], by simp⟩
      · exact ⟨[.MultiSet .Prefered m₂],
          by simp [StorageProxy.MultiGet, hpref, hlen, hb, hz], by simp⟩
  · intro m₂ sb₁ hmiss hm₂ hb
    refine ⟨hmerged m₂ sb₁ hmiss hm₂ hb, ?_⟩
    intro e _
    rw [hmerged m₂ sb₁ hmiss hm₂ hb]
    exact ⟨rfl, rfl⟩

/-- C22 on the keys A (held by the preferred tier), B (only in backup) and C
(in neither), with a preferred tier that refuses the backfill: the backup tier
is read for B and C only, and the call returns A and B with the nil error. -/
theorem StorageProxy_MultiGet_reads_missing_witness :
    missedKeys keysABC [(.Int 7, rowX)] = [.String "b", .String "c"] ∧
    readOnlyCacheProxy.MultiGet partWarmWorld keysABC [] =
      (none, [(.String "b", rowY), (.Int 7, rowX)],
        ⟨tierWithX, tierWithXB,
          [.MultiGet .Prefered keysABC, .MultiGet .Backup [.String "b", .String "c"],
            .MultiSet .Prefered [(.String "b", rowY)]]⟩) ∧
    (readOnlyCacheProxy.PreferedStorage.MultiSet tierWithX [(.String "b", rowY)]).1 =
      some downErr :=
  ⟨by decide,
    ((StorageProxy_MultiGet_reads_missing readOnlyCacheProxy partWarmWorld keysABC []
      [(.Int 7, rowX)] tierWithX (by decide)).2.2.2.2 [(.String "b", rowY)] tierWithXB
      (by decide) (by decide) (by decide)).1,
    by decide⟩

/-! ## Counter tier: what Decr leaves in the driver -/

theorem MemRedis_StoresDecrResult : StoresDecrResult MemRedis := by
  intro d key step
  simp [MemRedis, List.lookup]

/-- C25: when the key builds and the driver's decrement yields a negative
result `r`, `CounterRedisStorage.Decr` reports the value 0 and makes no other
driver call than that `Decr`: no write that would bring the counter back, and
no `Expire` even when an expiry is configured. The driver is left as its
`Decr` left it; over a driver that keeps the result of a decrement under the
key, a following `CounterRedisStorage.Get` of the key returns `r`, the negative
value, and no error. -/
theorem CounterRedisStorage_Decr_keeps_negative {δ : Type} (c : RedisClient δ)
    (p b : string) (ttl : Duration) (d : δ) (log : List RedisCall) (k : Key) (step : ℤ)
    (hk : k.toString ≠ "")
    (hneg : (c.Decr d (p ++ "_" ++ k.toString) step).1 < 0) :
    (NewCounterRedisStorage (Recording c) p b ttl).Decr (d, log) (some k) step =
      (0, none, ((c.Decr d (p ++ "_" ++ k.toString) step).2.2,
        log ++ [.Decr (p ++ "_" ++ k.toString) step])) ∧
    (StoresDecrResult c → IsInt64 (c.Decr d (p ++ "_" ++ k.toString) step).1 →
      ((NewCounterRedisStorage (Recording c) p b ttl).Get
        ((NewCounterRedisStorage (Recording c) p b ttl).Decr (d, log) (some k) step).2.2
        (some k)).1 = .returns ((c.Decr d (p ++ "_" ++ k.toString) step).1, none)) := by
  have hdecr : (NewCounterRedisStorage (Recording c) p b ttl).Decr (d, log) (some k) step =
      (0, none, ((c.Decr d (p ++ "_" ++ k.toString) step).2.2,
        log ++ [.Decr (p ++ "_" ++ k.toString) step])) := by
    simp [CounterRedisStorage.Decr, NewCounterRedisStorage, BuildCacheKey_valid _ k hk,
      Recording, hneg]
  refine ⟨hdecr, ?_⟩
  intro hdrv hr
  rw [hdecr]
  obtain ⟨hg, hge⟩ := hdrv d (p ++ "_" ++ k.toString) step
  rcases hget : c.Get (c.Decr d (p ++ "_" ++ k.toString) step).2.2 (p ++ "_" ++ k.toString)
    with ⟨data, eg, d₂⟩
  rw [hget] at hg hge
  simp only at hg hge
  subst hg hge
  have hlen : ¬ (Itoa (c.Decr d (p ++ "_" ++ k.toString) step).1).length = 0 := by
    intro h0
    exact Itoa_ne_empty _ (String.ext (List.length_eq_zero.1 h0))
  simp [CounterRedisStorage.Get, NewCounterRedisStorage, BuildCacheKey_valid _ k hk, Recording,
    hget, fatalGetError, Bytes.toString, hlen, Int64Encoding, ParseInt_Itoa _ hr]

/-- C25 on the counter tier with expiry 30 and a counter at 0: `Decr` by 1
reports 0, the driver keeps `-1` and received the one call `Decr`, and the
following `Get` returns -1. -/
theorem CounterRedisStorage_Decr_keeps_negative_witness :
    expiringCounterTier.Decr ([("cnt_a", "0")], []) (some (.String "a")) 1 =
      (0, none, ([("cnt_a", "-1")], [.Decr "cnt_a" 1])) ∧
    (expiringCounterTier.Get
      (expiringCounterTier.Decr ([("cnt_a", "0")], []) (some (.String "a")) 1).2.2
      (some (.String "a"))).1 = .returns (-1, none) :=
  have h := CounterRedisStorage_Decr_keeps_negative MemRedis "cnt" "cnt" 30
    [("cnt_a", "0")] [] (.String "a") 1 (by decide) (by decide)
  ⟨h.1, h.2 MemRedis_StoresDecrResult ⟨by decide, by decide⟩⟩

/-! ## GetRawKey -/

theorem Split_ne_nil (sep : Char) (l : List Char) : Split sep l ≠ [] := by
  cases l with
  | nil => simp [Split]
  | cons c cs =>
    simp only [Split]
    split
    · simp
    · split <;> simp

theorem Split_append_sep (sep : Char) (a b : List Char) :
    Split sep (a ++ sep :: b) = Split sep a ++ Split sep b := by
  induction a with
  | nil => simp [Split]
  | cons c a ih =>
    by_cases hc : c = sep
    · simp [Split, hc, ih]
    · simp only [List.cons_append, Split, hc, if_false, ih]
      cases hs : Split sep a with
      | nil => exact absurd hs (Split_ne_nil sep a)
      | cons piece pieces =>
        have e : Split sep (a.append (sep :: b)) = piece :: (pieces ++ Split sep b) := by
          have := ih
          rw [hs] at this
          exact this
        rw [e]
        rfl

theorem Split_no_sep (sep : Char) (l : List Char) (h : sep ∉ l) : Split sep l = [l] := by
  induction l with
  | nil => simp [Split]
  | cons c cs ih =>
    simp only [List.mem_cons, not_or] at h
    have hc : ¬ c = sep := fun e => h.1 e.symm
    simp [Split, hc, ih h.2]

theorem Split_pieces_no_sep (sep : Char) (l : List Char) :
    ∀ piece ∈ Split sep l, sep ∉ piece := by
  induction l with
  | nil => simp [Split]
  | cons c cs ih =>
    by_cases hc : c = sep
    · simp only [Split, hc, if_true, List.mem_cons]
      rintro piece (rfl | hp)
      · simp
      · exact ih piece hp
    · simp only [Split, hc, if_false]
      cases hs : Split sep cs with
      | nil => exact absurd hs (Split_ne_nil sep cs)
      | cons piece pieces =>
        rw [hs] at ih
        simp only [List.mem_cons]
        rintro q (rfl | hq)
        · simp only [List.mem_cons, not_or]
          exact ⟨fun e => hc e.symm, ih piece (by simp)⟩
        · exact ih q (by simp [hq])

theorem getLastD_mem {α : Type} (l : List α) (d : α) (h : l ≠ []) : l.getLastD d ∈ l := by
  induction l generalizing d with
  | nil => exact absurd rfl h
  | cons a t ih =>
    cases t with
    | nil => simp
    | cons b u =>
      have := ih a (by simp)
      simp only [List.getLastD_cons] at this ⊢
      exact List.mem_cons_of_mem _ this

theorem getLastD_append_right {α : Type} (l r : List α) (d : α) (h : r ≠ []) :
    (l ++ r).getLastD d = r.getLastD d := by
  induction l generalizing d with
  | nil => rfl
  | cons a t ih =>
    cases r with
    | nil => exact absurd rfl h
    | cons b u =>
      rw [List.cons_append, List.getLastD_cons, ih a, List.getLastD_cons, List.getLastD_cons]
theorem GetRawKey_after_sep (a b : string) (h : '_' ∉ b.data) :
    GetRawKey (a ++ "_" ++ b) = .String b := by
  have e : (a ++ "_" ++ b).data = a.data ++ '_' :: b.data := by
    simp [String.data_append]
  simp only [GetRawKey, e, Split_append_sep]
  rw [getLastD_append_right _ _ _ (Split_ne_nil _ _), Split_no_sep _ _ h]
  rfl

/-- C27: `GetRawKey` returns the part of its input after the last `_`, and the
whole input when it has no `_`; so for every prefix `p` and valid key `k` (a
key whose `String()` is not empty), `BuildCacheKey(p, k)` succeeds and
`GetRawKey` of the cache key it returns has the string `k.String()` if and
only if `k.String()` contains no `_`. -/
theorem GetRawKey_BuildCacheKey (p : string) (k : Key) (hk : k.toString ≠ "") :
    (∀ a b : string, '_' ∉ b.data → GetRawKey (a ++ "_" ++ b) = .String b) ∧
    (∀ s : string, '_' ∉ s.data → GetRawKey s = .String s) ∧
    (BuildCacheKey p (some k)).2 = none ∧
    ((GetRawKey (BuildCacheKey p (some k)).1).toString = k.toString ↔
      '_' ∉ k.toString.data) := by
  refine ⟨GetRawKey_after_sep, ?_, ?_, ?_⟩
  · intro s h
    simp only [GetRawKey, Split_no_sep _ _ h]
    rfl
  · rw [BuildCacheKey_valid p k hk]
  · rw [BuildCacheKey_valid p k hk]
    constructor
    · intro h hmem
      generalize k.toString = s at h hmem
      have e : (p ++ "_" ++ s).data = p.data ++ '_' :: s.data := by
        simp [String.data_append]
      have h1 : String.mk ((Split '_' (p ++ "_" ++ s).data).getLastD []) = s := h
      rw [e, Split_append_sep, getLastD_append_right _ _ _ (Split_ne_nil _ _)] at h1
      have hin := getLastD_mem (Split '_' s.data) [] (Split_ne_nil _ _)
      have hno := Split_pieces_no_sep '_' s.data _ hin
      have hd : (Split '_' s.data).getLastD [] = s.data := congrArg String.data h1
      rw [hd] at hno
      exact hno hmem
    · intro h
      rw [GetRawKey_after_sep p k.toString h]
      rfl

theorem GetRawKey_BuildCacheKey_witness :
    Key.toString (.String "7") ≠ "" ∧
    ((GetRawKey (BuildCacheKey "user_profile" (some (.String "7"))).1).toString
        = Key.toString (.String "7") ↔
      '_' ∉ (Key.toString (.String "7")).data) ∧
    Key.toString (.String "a_b") ≠ "" ∧
    ((GetRawKey (BuildCacheKey "user" (some (.String "a_b"))).1).toString
        = Key.toString (.String "a_b") ↔
      '_' ∉ (Key.toString (.String "a_b")).data) ∧
    GetRawKey "user_a_b" = .String "b" :=
  ⟨by decide, (GetRawKey_BuildCacheKey "user_profile" (.String "7") (by decide)).2.2.2,
    by decide, (GetRawKey_BuildCacheKey "user" (.String "a_b") (by decide)).2.2.2, by decide⟩

/-! ## Single-tier Delete -/

theorem deleteCacheKeys_eq_map (p : string) (keyList : List (Option Key)) :
    RedisStorage.deleteCacheKeys p keyList = keyList.map (fun key => (BuildCacheKey p key).1) := by
  induction keyList with
  | nil => rfl
  | cons key rest ih =>
    simp only [RedisStorage.deleteCacheKeys, List.map_cons, ih, List.cons.injEq, and_true]
    rcases hb : BuildCacheKey p key with ⟨ck, _ | err⟩
    · rfl
    · rcases key with _ | k
      · simp [BuildCacheKey] at hb
        simp [hb.1]
      · by_cases hk : k.toString = ""
        · simp [BuildCacheKey, hk] at hb
          simp [hb.1]
        · rw [BuildCacheKey_valid p k hk] at hb
          simp at hb

/-- C23: `RedisStorage.Delete` returns success without a driver call for an
empty key list, and for a non-empty key list it asks the driver, in one `Del`,
for the cache keys `BuildCacheKey(prefix, k)` of the given keys. It does not
fail fast: a key that is absent or whose string is empty does not stop the
call, the `Del` is issued all the same, with the empty string that
`BuildCacheKey` returns in the place of that key, and the call returns an
error only when the driver does. -/
theorem RedisStorage_Delete_no_fail_fast {δ O : Type}
    (this : RedisStorage (δ × List RedisCall) O) (c : RedisClient δ)
    (hclient : this.client = Recording c) (d : δ) (log : List RedisCall) :
    this.Delete (d, log) [] = (none, (d, log)) ∧
    ∀ keyList : List (Option Key), keyList ≠ [] →
      (this.Delete (d, log) keyList).2.2 =
        log ++ [.Del (keyList.map (fun key => (BuildCacheKey this.KeyPrefix key).1))] ∧
      (this.Delete (d, log) keyList).1 =
        (c.Del d (keyList.map (fun key => (BuildCacheKey this.KeyPrefix key).1))).2.1.map
          (fun err => .Wrap err "redis delete error") ∧
      (BuildCacheKey this.KeyPrefix none).1 = "" ∧
      (BuildCacheKey this.KeyPrefix (some (.String ""))).1 = "" := by
  refine ⟨by simp [RedisStorage.Delete], ?_⟩
  intro keyList hne
  have hlen : ¬ keyList.length = 0 := fun h => hne (List.length_eq_zero.1 h)
  simp only [RedisStorage.Delete, hlen, if_false, hclient, Recording, deleteCacheKeys_eq_map]
  refine ⟨?_, ?_, by simp [BuildCacheKey], by simp [BuildCacheKey, Key.toString]⟩
  · rcases hd : (c.Del d (keyList.map (fun key => (BuildCacheKey this.KeyPrefix key).1))) with
      ⟨n, _ | err, d1⟩ <;> simp [hd]
  · rcases hd : (c.Del d (keyList.map (fun key => (BuildCacheKey this.KeyPrefix key).1))) with
      ⟨n, _ | err, d1⟩ <;> simp [hd]

theorem RedisStorage_Delete_no_fail_fast_witness :
    stringTier.client = Recording MemRedis ∧
    (stringTier.Delete ([("user~profile_a", "x")], []) [some (.String "a"), none]).2.2 =
      [] ++ [.Del ([some (.String "a"), none].map
        (fun key => (BuildCacheKey stringTier.KeyPrefix key).1))] ∧
    stringTier.Delete ([("user~profile_a", "x")], []) [some (.String "a"), none] =
      (none, ([], [.Del ["user~profile_a", ""]])) ∧
    userCounterTier.Delete ([("user_cnt_a", "1")], []) [some (.String "a"), none] =
      (some (.Wrap (.New "key should not be nil or to string should not be empty string")
        "build cache key error"), ([("user_cnt_a", "1")], [])) :=
  ⟨rfl,
    ((RedisStorage_Delete_no_fail_fast stringTier MemRedis rfl [("user~profile_a", "x")] []).2
      [some (.String "a"), none] (by decide)).1,
    by decide, by decide⟩

/-! ## Single-tier MultiGet -/

theorem BuildCacheKey_ok_toString (p : string) (k : Key)
    (h : (BuildCacheKey p (some k)).2 = none) : k.toString ≠ "" := by
  intro hk
  simp [BuildCacheKey, hk] at h

theorem buildCacheKeys_built (p : string) (ks : List Key)
    (h : ∀ k ∈ ks, (BuildCacheKey p (some k)).2 = none) :
    buildCacheKeys p (ks.map some) = (cacheKeysOf p ks, none) := by
  induction ks with
  | nil => rfl
  | cons k ks ih =>
    have hk := BuildCacheKey_ok_toString p k (h k (by simp))
    have ih1 := ih (fun k1 hk1 => h k1 (by simp [hk1]))
    simp only [List.map_cons, buildCacheKeys, BuildCacheKey_valid p k hk, ih1, cacheKeysOf]

theorem buildCacheKeys_failed (p : string) (keys : List (Option Key))
    (h : ∃ key ∈ keys, (BuildCacheKey p key).2 ≠ none) :
    ∃ err, buildCacheKeys p keys = ([], some err) := by
  induction keys with
  | nil => simp at h
  | cons key rest ih =>
    simp only [buildCacheKeys]
    rcases hb : BuildCacheKey p key with ⟨ck, _ | err⟩
    · have hrest : ∃ key ∈ rest, (BuildCacheKey p key).2 ≠ none := by
        obtain ⟨k1, hk1, hne⟩ := h
        rcases List.mem_cons.1 hk1 with rfl | hin
        · rw [hb] at hne
          exact absurd rfl hne
        · exact ⟨k1, hin, hne⟩
      obtain ⟨err, he⟩ := ih hrest
      exact ⟨err, by simp [he]⟩
    · exact ⟨err, rfl⟩

theorem multiGetLoop_entries {O : Type} (w : Bool) (decode : string → Outcome (Option O))
    (val : List (Option string)) :
    ∀ (ks : List Key) (m : ValuesMap O), val.length ≤ ks.length →
      (∀ payload, some payload ∈ val → (decode payload).returned = true) →
      multiGetLoop w decode (ks.map some) val m =
        .returns (mergeInto m (decodedEntries decode ks val).reverse) := by
  induction val with
  | nil =>
    intro ks m _ _
    cases ks <;> simp [multiGetLoop, decodedEntries, mergeInto]
  | cons v val ih =>
    intro ks m hlen hdec
    cases ks with
    | nil => simp at hlen
    | cons k ks =>
      have hlen1 : val.length ≤ ks.length := by simpa using hlen
      have hdec1 : ∀ payload, some payload ∈ val → (decode payload).returned = true :=
        fun payload hin => hdec payload (by simp [hin])
      cases v with
      | none =>
        simp only [List.map_cons, multiGetLoop, List.tail_cons, decodedEntries]
        exact ih ks m hlen1 hdec1
      | some payload =>
        have hp := hdec payload (by simp)
        rcases hr : decode payload with (_ | object) | msg
        · simp only [List.map_cons, multiGetLoop, hr, List.tail_cons, decodedEntries]
          cases w <;> simp [ih ks m hlen1 hdec1]
        · simp only [List.map_cons, multiGetLoop, hr, decodedEntries]
          rw [ih ks _ hlen1 hdec1]
          simp [mergeInto, List.foldr_append]
        · rw [hr] at hp
          simp [Outcome.returned] at hp

theorem multiGet_MultiGetSpec {δ O : Type} (c : RedisClient δ) (p : string) (w : Bool)
    (decode : string → Outcome (Option O)) :
    MultiGetSpec c p decode (multiGet (Recording c) p w decode) := by
  intro d log values
  refine ⟨by simp [multiGet], ?_, ?_⟩
  · intro keys hfail
    have hne : ¬ keys.length = 0 := by
      obtain ⟨key, hin, _⟩ := hfail
      intro h0
      rw [List.length_eq_zero.1 h0] at hin
      simp at hin
    obtain ⟨err, he⟩ := buildCacheKeys_failed p keys hfail
    exact ⟨.Wrap err "build cache key error", by simp only [multiGet, hne, if_false, he]⟩
  · intro ks hks hbuilt
    have hne : ¬ (ks.map some).length = 0 := by
      simpa using hks
    have hb := buildCacheKeys_built p ks hbuilt
    rcases hm : c.MGet d (cacheKeysOf p ks) with ⟨val, _ | err, d1⟩
    · refine ⟨?_, ?_, ?_⟩
      · simp only [multiGet, hne, if_false, hb, Recording, hm]
        split <;> rfl
      · intro err he
        simp at he
      · intro _ hlen hdec
        simp only [multiGet, hne, if_false, hb, Recording, hm,
          multiGetLoop_entries w decode val ks values hlen hdec]
    · refine ⟨?_, ?_, ?_⟩
      · simp only [multiGet, hne, if_false, hb, Recording, hm]
      · intro err1 he
        simp only [Option.some.injEq] at he
        simp only [multiGet, hne, if_false, hb, Recording, hm, he]
      · intro he
        simp at he
/-- C21, counterexample: with an empty key list no requested key fails to
build, and yet neither `RedisStorage.MultiGet` nor `CounterRedisStorage.MultiGet`
issues a read: each returns success with the driver not called. -/
theorem MultiGet_empty_keys_no_read :
    (∀ key ∈ ([] : List (Option Key)), (BuildCacheKey stringTier.KeyPrefix key).2 = none) ∧
    stringTier.MultiGet ([("user~profile_a", "x")], []) [] [] =
      (.returns (none, []), ([("user~profile_a", "x")], [])) ∧
    userCounterTier.MultiGet ([("user_cnt_a", "1")], []) [] [] =
      (.returns (none, []), ([("user_cnt_a", "1")], [])) :=
  ⟨by simp, by decide, by decide⟩

/-- C21 (as amended): `RedisStorage.MultiGet` and `CounterRedisStorage.MultiGet`
over a recorded driver meet `MultiGetSpec`. If a requested key fails to build,
the whole call fails and no driver read is issued. Otherwise, for a key list
that is not empty, one batched read is issued for the cache keys in request
order, and when it returns no error the output map gains exactly the entries
`keys[i] -> decode(payload[i])` for the positions `i` whose payload is present
and decodes; absent payloads and payloads that fail to decode are omitted and
do not make the call fail. For an empty key list the call succeeds with no
driver read and the map as it was. -/
theorem MultiGet_single_tier {δ₁ δ₂ O : Type} [BinaryMarshaling O]
    (this : RedisStorage (δ₁ × List RedisCall) O) (c₁ : RedisClient δ₁)
    (hthis : this.client = Recording c₁)
    (that : CounterRedisStorage (δ₂ × List RedisCall)) (c₂ : RedisClient δ₂)
    (hthat : that.client = Recording c₂) :
    MultiGetSpec c₁ this.KeyPrefix this.decode this.MultiGet ∧
    MultiGetSpec c₂ that.KeyPrefix that.decode that.MultiGet := by
  have e₁ : this.MultiGet = multiGet (Recording c₁) this.KeyPrefix true this.decode := by
    funext d keys value
    simp only [RedisStorage.MultiGet, hthis]
  have e₂ : that.MultiGet = multiGet (Recording c₂) that.KeyPrefix false that.decode := by
    funext d keys values
    simp only [CounterRedisStorage.MultiGet, hthat]
  rw [e₁, e₂]
  exact ⟨multiGet_MultiGetSpec _ _ _ _, multiGet_MultiGetSpec _ _ _ _⟩

theorem MultiGet_single_tier_witness :
    stringTier.client = Recording MemRedis ∧
    userCounterTier.client = Recording MemRedis ∧
    (stringTier.MultiGet ([("user~profile_a", "x")], [])
        ([Key.String "a", Key.String "b"].map some) []).2 =
      ((MemRedis.MGet [("user~profile_a", "x")]
          (cacheKeysOf stringTier.KeyPrefix [Key.String "a", Key.String "b"])).2.2,
        [] ++ [.MGet (cacheKeysOf stringTier.KeyPrefix [Key.String "a", Key.String "b"])]) ∧
    stringTier.MultiGet ([("user~profile_a", "x")], [])
        [some (.String "a"), some (.String "b")] [] =
      (.returns (none, [(.String "a", .stringPtr (some "x"))]),
        ([("user~profile_a", "x")], [.MGet ["user~profile_a", "user~profile_b"]])) ∧
    userCounterTier.MultiGet ([("user_cnt_a", "7"), ("user_cnt_b", "x")], [])
        [some (.String "a"), some (.String "b"), some (.Int 3)] [(.Int 3, 5)] =
      (.returns (none, [(.String "a", 7), (.Int 3, 5)]),
        ([("user_cnt_a", "7"), ("user_cnt_b", "x")],
          [.MGet ["user_cnt_a", "user_cnt_b", "user_cnt_3"]])) ∧
    stringTier.MultiGet ([("user~profile_a", "x")], []) [some (.String "a"), none] [] =
      (.returns (some (.Wrap
          (.New "key should not be nil or to string should not be empty string")
          "build cache key error"), []),
        ([("user~profile_a", "x")], [])) :=
  ⟨rfl, rfl,
    (((MultiGet_single_tier stringTier MemRedis rfl userCounterTier MemRedis rfl).1
      [("user~profile_a", "x")] [] []).2.2 [Key.String "a", Key.String "b"]
        (by decide) (by decide)).1,
    by decide, by decide, by decide⟩

end storage
